import Mathlib

/-!
# Verification of `lighthouse-core/scripts/generate-lh-timing-trace.js`

A shallow embedding of `generateTraceEvents`, the function that turns a list of
user-timing entries into Chromium trace events, and of the two functions around it,
`saveTraceOfTimings` and `saveTraceFromCLI`, together with theorems about them.

## Modelling conventions

* A JavaScript value is a `JSValue`: the values `JSON.parse` can produce, plus
  `undefined` (the result of reading an absent property).
* An entry is a plain object (prototype `Object.prototype`, extensible, data
  properties only), represented by the list of its own enumerable properties in
  `Object.keys` order.
* A JavaScript Number is an IEEE-754 double, represented as `±m·2^e`; products
  are rounded to nearest, ties to even.
* A `TypeError` raised by the code is the `Except.error` result.
* The function assigns to `entry.url`, so it returns, next to the events, the
  entries as they are after the call.
* String-to-number conversion and the conversion of arrays and objects to
  numbers are library behaviour of the JavaScript runtime that the script does
  not define; they are parameters (`Runtime`).
* The wrapper functions run on an explicit `Process` state (arguments, working
  directory, file system, console streams) and end in an `Outcome`; `path.resolve`,
  `JSON.stringify`, `fs.writeFileSync` and the reading of
  `JSON.parse(text).timing.entries` are parameters (`Host`).
-/

namespace LHTimingTrace

/-! ## Numbers -/

/-- A JavaScript Number: `NaN`, `±Infinity`, or the finite value `(-1)^neg · m · 2^e`
(`m = 0` is `+0` or `-0`). -/
inductive JSNum where
  | nan
  | inf (neg : Bool)
  | fin (neg : Bool) (m : Nat) (e : Int)
  deriving DecidableEq

/-- Number of binary digits of `n`, by halving (`fuel` bounds the recursion). -/
def bitLengthAux : Nat → Nat → Nat
  | 0, _ => 0
  | fuel + 1, n => if n = 0 then 0 else bitLengthAux fuel (n / 2) + 1

/-- Number of binary digits of `n` (`0` for `0`). -/
def bitLength (n : Nat) : Nat := bitLengthAux n n

/-- Strip the factors of two from a mantissa (`fuel` bounds the recursion). -/
def normalizeAux : Nat → Nat → Int → Nat × Int
  | 0, m, e => (m, e)
  | fuel + 1, m, e =>
    if m ≠ 0 ∧ m % 2 = 0 then normalizeAux fuel (m / 2) (e + 1) else (m, e)

/-- Canonical representative of a finite value: odd mantissa, or `0·2^0`. -/
def JSNum.normalize (neg : Bool) (m : Nat) (e : Int) : JSNum :=
  if m = 0 then .fin neg 0 0
  else
    let r := normalizeAux m m e
    .fin neg r.1 r.2

/-- Round the exact value `(-1)^neg · m · 2^e` to a double: 53 significant bits,
least exponent `-1074`, round to nearest with ties to even, overflow to infinity. -/
def JSNum.round (neg : Bool) (m : Nat) (e : Int) : JSNum :=
  if m = 0 then .fin neg 0 0
  else
    let shift : Nat := (max ((bitLength m : Int) - 53) (-1074 - e)).toNat
    let q := m / 2 ^ shift
    let r := m % 2 ^ shift
    let q1 := if 2 ^ shift < 2 * r ∨ (2 * r = 2 ^ shift ∧ q % 2 = 1) then q + 1 else q
    let e1 : Int := e + shift
    if q1 = 0 then .fin neg 0 0
    else if 1024 < (bitLength q1 : Int) + e1 then .inf neg
    else JSNum.normalize neg q1 e1

/-- The Number value of a natural number literal. -/
def JSNum.ofNat (n : Nat) : JSNum := JSNum.round false n 0

/-- JavaScript `x * y` on Numbers. -/
def JSNum.mul : JSNum → JSNum → JSNum
  | .nan, _ => .nan
  | _, .nan => .nan
  | .inf s, .inf t => .inf (xor s t)
  | .inf s, .fin t m _ => if m = 0 then .nan else .inf (xor s t)
  | .fin s m _, .inf t => if m = 0 then .nan else .inf (xor s t)
  | .fin s m e, .fin t n f => JSNum.round (xor s t) (m * n) (e + f)

/-- Whether a Number is `+0` or `-0`. -/
def JSNum.isZero : JSNum → Bool
  | .fin _ m _ => m == 0
  | _ => false

/-! ## Values and objects -/

/-- A JavaScript value as `JSON.parse` produces it, plus `undefined`. -/
inductive JSValue where
  | undefined
  | null
  | bool (b : Bool)
  | number (x : JSNum)
  | string (s : String)
  | array (items : List JSValue)
  | object (props : List (String × JSValue))

mutual
/-- Decidable equality of values. -/
def JSValue.decEq : (a b : JSValue) → Decidable (a = b)
  | .undefined, .undefined => isTrue rfl
  | .null, .null => isTrue rfl
  | .bool a, .bool b =>
    if h : a = b then isTrue (by rw [h]) else isFalse (by intro h1; cases h1; exact h rfl)
  | .number a, .number b =>
    if h : a = b then isTrue (by rw [h]) else isFalse (by intro h1; cases h1; exact h rfl)
  | .string a, .string b =>
    if h : a = b then isTrue (by rw [h]) else isFalse (by intro h1; cases h1; exact h rfl)
  | .array a, .array b =>
    match JSValue.decEqItems a b with
    | isTrue h => isTrue (by rw [h])
    | isFalse h => isFalse (by intro h1; cases h1; exact h rfl)
  | .object a, .object b =>
    match JSValue.decEqProps a b with
    | isTrue h => isTrue (by rw [h])
    | isFalse h => isFalse (by intro h1; cases h1; exact h rfl)
  | .undefined, .null | .undefined, .bool _ | .undefined, .number _ | .undefined, .string _
  | .undefined, .array _ | .undefined, .object _ => isFalse (by intro h; cases h)
  | .null, .undefined | .null, .bool _ | .null, .number _ | .null, .string _
  | .null, .array _ | .null, .object _ => isFalse (by intro h; cases h)
  | .bool _, .undefined | .bool _, .null | .bool _, .number _ | .bool _, .string _
  | .bool _, .array _ | .bool _, .object _ => isFalse (by intro h; cases h)
  | .number _, .undefined | .number _, .null | .number _, .bool _ | .number _, .string _
  | .number _, .array _ | .number _, .object _ => isFalse (by intro h; cases h)
  | .string _, .undefined | .string _, .null | .string _, .bool _ | .string _, .number _
  | .string _, .array _ | .string _, .object _ => isFalse (by intro h; cases h)
  | .array _, .undefined | .array _, .null | .array _, .bool _ | .array _, .number _
  | .array _, .string _ | .array _, .object _ => isFalse (by intro h; cases h)
  | .object _, .undefined | .object _, .null | .object _, .bool _ | .object _, .number _
  | .object _, .string _ | .object _, .array _ => isFalse (by intro h; cases h)
/-- Decidable equality of array contents. -/
def JSValue.decEqItems : (as bs : List JSValue) → Decidable (as = bs)
  | [], [] => isTrue rfl
  | [], _ :: _ => isFalse (by intro h; cases h)
  | _ :: _, [] => isFalse (by intro h; cases h)
  | a :: as, b :: bs =>
    match JSValue.decEq a b, JSValue.decEqItems as bs with
    | isTrue h1, isTrue h2 => isTrue (by rw [h1, h2])
    | isFalse h1, _ => isFalse (by intro h; cases h; exact h1 rfl)
    | _, isFalse h2 => isFalse (by intro h; cases h; exact h2 rfl)
/-- Decidable equality of property lists. -/
def JSValue.decEqProps : (as bs : List (String × JSValue)) → Decidable (as = bs)
  | [], [] => isTrue rfl
  | [], _ :: _ => isFalse (by intro h; cases h)
  | _ :: _, [] => isFalse (by intro h; cases h)
  | (k, a) :: as, (l, b) :: bs =>
    if hk : k = l then
      match JSValue.decEq a b, JSValue.decEqProps as bs with
      | isTrue h1, isTrue h2 => isTrue (by rw [hk, h1, h2])
      | isFalse h1, _ => isFalse (by intro h; cases h; exact h1 rfl)
      | _, isFalse h2 => isFalse (by intro h; cases h; exact h2 rfl)
    else isFalse (by intro h; cases h; exact hk rfl)
end

instance : DecidableEq JSValue := JSValue.decEq

/-- A plain object: its own enumerable properties, in `Object.keys` order. -/
abbrev JSObject := List (String × JSValue)

/-- The exception the code can raise. -/
inductive JSError where
  | typeError
  deriving DecidableEq

/-- Property read `o[key]` / `o.key` on a plain object: the own property, else
`undefined` (`Object.prototype` has none of the keys the script reads by name). -/
def getProp : JSObject → String → JSValue
  | [], _ => .undefined
  | (k, v) :: rest, key => if k = key then v else getProp rest key

/-- Whether `key` is an own property of `o`. -/
def hasOwn : JSObject → String → Bool
  | [], _ => false
  | (k, _) :: rest, key => if k = key then true else hasOwn rest key

/-- Creating or overwriting an own data property: an existing key keeps its
position, a new key goes last. -/
def setProp : JSObject → String → JSValue → JSObject
  | [], key, v => [(key, v)]
  | (k, w) :: rest, key, v =>
    if k = key then (k, v) :: rest else (k, w) :: setProp rest key v

/-- `Object.keys(o)`. -/
def objectKeys (o : JSObject) : List String := o.map Prod.fst

/-- `v === lit` for a string literal `lit`. -/
def strictEqualsString (v : JSValue) (lit : String) : Bool :=
  match v with
  | .string s => s == lit
  | _ => false

/-- `v === 0`. -/
def strictEqualsZero (v : JSValue) : Bool :=
  match v with
  | .number x => x.isZero
  | _ => false

/-- `s.startsWith(search)`. -/
def startsWith (s search : String) : Bool := search.data.isPrefixOf s.data

/-- Library behaviour of the JavaScript runtime that the script relies on but
does not define. -/
structure Runtime where
  /-- `StringToNumber`: the Number a string converts to. -/
  stringToNumber : String → JSNum
  /-- `ToNumber` of an array or object (through `ToPrimitive`), which can raise. -/
  objectToNumber : JSValue → Except JSError JSNum

/-- `ToNumber(v)`. -/
def toNumber (rt : Runtime) : JSValue → Except JSError JSNum
  | .undefined => .ok .nan
  | .null => .ok (.fin false 0 0)
  | .bool b => .ok (if b then JSNum.ofNat 1 else .fin false 0 0)
  | .number x => .ok x
  | .string s => .ok (rt.stringToNumber s)
  | v => rt.objectToNumber v

/-- `v * 1000`. -/
def times1000 (rt : Runtime) (v : JSValue) : Except JSError JSNum :=
  match toNumber rt v with
  | .ok x => .ok (x.mul (JSNum.ofNat 1000))
  | .error err => .error err

/-- `Number.prototype.toString(16)` on a non-negative integer. -/
def toString16 (n : Nat) : String := String.mk (Nat.toDigits 16 n)

/-! ## Trace events -/

/-- The object built for one entry; its keys in creation order are
`name, cat, ts, dur, pid, tid?, ph, s?, id, args`. -/
structure TraceEvent where
  name : JSValue
  cat : JSValue
  ts : JSNum
  dur : JSNum
  pid : String
  tid : Option String
  ph : String
  s : Option String
  id : String
  args : JSObject
  deriving DecidableEq

/-- `args[key] = value` on the object literal `args`: the key `__proto__` reaches
the setter inherited from `Object.prototype`, which creates no own property;
every other key creates or overwrites an own property. -/
def assignArg (args : JSObject) (key : String) (value : JSValue) : JSObject :=
  if key = "__proto__" then args else setProp args key value

/-- Lines 62-66: the body of the loop over the keys of `entry`, for one `key`. -/
def copyKey (entry : JSObject) (args : JSObject) (key : String) : JSObject :=
  let value := getProp entry key
  if key = "entryType" ∨ key = "name" ∨ key = "toJSON" then args
  else assignArg args key value

/-- Lines 60-67: the `args` object built from the keys of `entry`. -/
def buildArgs (entry : JSObject) : JSObject :=
  (objectKeys entry).foldl (copyKey entry) []

/-- Lines 32-43: the `switch` on `entry.entryType`, giving `pid` and `tid`. -/
def classify (entry : JSObject) : Except JSError (String × Option String) :=
  let pid := "Measurements"
  if strictEqualsString (getProp entry "entryType") "mark" then
    .ok ("Marks", none)
  else if strictEqualsString (getProp entry "entryType") "measure" then
    match getProp entry "name" with
    | .string name =>
      if startsWith name "audit-" then .ok (pid, some "Audits")
      else if startsWith name "gather-" then .ok (pid, some "Gatherers")
      else .ok (pid, some "TopLevelMeasures")
    | _ => .error .typeError
  else
    .ok ("Primary", none)

/-- Lines 23-70: the body of the loop for one `entry` with the counter at `id`.
Returns the event and the entry as the body leaves it. -/
def traceEventOfEntry (rt : Runtime) (id : Nat) (entry : JSObject) :
    Except JSError (TraceEvent × JSObject) :=
  let name := getProp entry "name"
  let cat := getProp entry "entryType"
  match times1000 rt (getProp entry "startTime") with
  | .error err => .error err
  | .ok ts =>
    match times1000 rt (getProp entry "duration") with
    | .error err => .error err
    | .ok dur =>
      match classify entry with
      | .error err => .error err
      | .ok (pid, tid) =>
        let isResource := strictEqualsString (getProp entry "entryType") "resource"
        let entry1 := if isResource then setProp entry "url" name else entry
        let name1 := if isResource then JSValue.string "resource" else name
        let isInstant := strictEqualsZero (getProp entry1 "duration")
        .ok ({ name := name1
               cat := cat
               ts := ts
               dur := dur
               pid := pid
               tid := tid
               ph := if isInstant then "n" else "X"
               s := if isInstant then some "t" else none
               id := "0x" ++ toString16 id
               args := buildArgs entry1 }, entry1)

/-- Lines 22-71: the `for ... of` loop over the remaining entries, with the
events pushed so far, the counter, and the entries already visited. -/
def forOfLoop (rt : Runtime) :
    List JSObject → List TraceEvent → Nat → List JSObject →
      Except JSError (List TraceEvent × List JSObject)
  | [], currentTrace, _, visited => .ok (currentTrace, visited)
  | entry :: rest, currentTrace, id, visited =>
    match traceEventOfEntry rt id entry with
    | .error err => .error err
    | .ok (traceEvent, entry1) =>
      forOfLoop rt rest (currentTrace ++ [traceEvent]) (id + 1) (visited ++ [entry1])

/-- Lines 18-74: `generateTraceEvents(entries)`. Returns the trace events and the
entries as they are after the call, or the exception raised. -/
def generateTraceEvents (rt : Runtime) (entries : List JSObject) :
    Except JSError (List TraceEvent × List JSObject) :=
  forOfLoop rt entries [] 0 []

/-! ## Definitions used to state the properties -/

/-- The value of a lowercase hexadecimal digit character. -/
def hexDigitValue (c : Char) : Option Nat :=
  if '0' ≤ c ∧ c ≤ '9' then some (c.toNat - '0'.toNat)
  else if 'a' ≤ c ∧ c ≤ 'f' then some (c.toNat - 'a'.toNat + 10)
  else none

/-- The number denoted by the digits read so far (`acc`) followed by `ds`. -/
def hexValueAux : List Char → Nat → Option Nat
  | [], acc => some acc
  | c :: cs, acc =>
    match hexDigitValue c with
    | some d => hexValueAux cs (16 * acc + d)
    | none => none

/-- The number a non-empty string of lowercase hexadecimal digits denotes. -/
def hexValue (ds : List Char) : Option Nat :=
  if ds = [] then none else hexValueAux ds 0

/-- The digit string `ds` is the lowercase base-16 numeral of `n` without leading zeros. -/
def IsHexNumeral (ds : List Char) (n : Nat) : Prop :=
  hexValue ds = some n ∧ (ds.head? = some '0' → ds = ['0'])

/-- The integer denoted by the hexadecimal numeral that follows `0x` in an id. -/
def idNumber (id : String) : Option Nat :=
  match id.data with
  | '0' :: 'x' :: ds => hexValue ds
  | _ => none

/-- A runtime for evaluating the script on entries whose `startTime` and
`duration` are numbers or absent: on such entries it is never consulted. -/
def numericRuntime : Runtime where
  stringToNumber := fun _ => .nan
  objectToNumber := fun _ => .error .typeError

/-! ## Sample entries -/

/-- The entry `{name: 'mark-a', entryType: 'mark', startTime: 5, duration: 0}`. -/
def sampleMark : JSObject :=
  [("name", .string "mark-a"), ("entryType", .string "mark"),
   ("startTime", .number (.fin false 5 0)), ("duration", .number (.fin false 0 0))]

/-- The entry `{name: 'audit-foo', entryType: 'measure', startTime: 1, duration: 2}`. -/
def sampleMeasure : JSObject :=
  [("name", .string "audit-foo"), ("entryType", .string "measure"),
   ("startTime", .number (.fin false 1 0)), ("duration", .number (.fin false 1 1))]

/-- The entry `{name: 'http://a/b.js', entryType: 'resource', startTime: 3, duration: 4,
initiatorType: 'script'}`. -/
def sampleResource : JSObject :=
  [("name", .string "http://a/b.js"), ("entryType", .string "resource"),
   ("startTime", .number (.fin false 3 0)), ("duration", .number (.fin false 1 2)),
   ("initiatorType", .string "script")]

/-- The three sample entries, as a list. -/
def sampleEntries : List JSObject := [sampleMark, sampleMeasure, sampleResource]

/-- The event for `sampleMark` at index 0. -/
def sampleMarkEvent : TraceEvent where
  name := .string "mark-a"
  cat := .string "mark"
  ts := .fin false 625 3
  dur := .fin false 0 0
  pid := "Marks"
  tid := none
  ph := "n"
  s := some "t"
  id := "0x0"
  args := [("startTime", .number (.fin false 5 0)), ("duration", .number (.fin false 0 0))]

/-- The event for `sampleMeasure` at index 1. -/
def sampleMeasureEvent : TraceEvent where
  name := .string "audit-foo"
  cat := .string "measure"
  ts := .fin false 125 3
  dur := .fin false 125 4
  pid := "Measurements"
  tid := some "Audits"
  ph := "X"
  s := none
  id := "0x1"
  args := [("startTime", .number (.fin false 1 0)), ("duration", .number (.fin false 1 1))]

/-- The event for `sampleResource` at index 2. -/
def sampleResourceEvent : TraceEvent where
  name := .string "resource"
  cat := .string "resource"
  ts := .fin false 375 3
  dur := .fin false 125 5
  pid := "Primary"
  tid := none
  ph := "X"
  s := none
  id := "0x2"
  args := [("startTime", .number (.fin false 3 0)), ("duration", .number (.fin false 1 2)),
           ("initiatorType", .string "script"), ("url", .string "http://a/b.js")]

/-- The events for `sampleEntries`. -/
def sampleEvents : List TraceEvent := [sampleMarkEvent, sampleMeasureEvent, sampleResourceEvent]

/-- The sample entries after the call: the resource entry has gained `url`. -/
def sampleEntriesAfter : List JSObject :=
  [sampleMark, sampleMeasure, sampleResource ++ [("url", .string "http://a/b.js")]]

/-- A resource entry that already carries a `url` key:
`{name: 'http://a/b.js', entryType: 'resource', startTime: 3, duration: 4, url: 'http://old/'}`. -/
def resourceWithUrl : JSObject :=
  [("name", .string "http://a/b.js"), ("entryType", .string "resource"),
   ("startTime", .number (.fin false 3 0)), ("duration", .number (.fin false 1 2)),
   ("url", .string "http://old/")]

/-- The event for `resourceWithUrl` at index 0: `args.url` is the entry's name. -/
def resourceWithUrlEvent : TraceEvent where
  name := .string "resource"
  cat := .string "resource"
  ts := .fin false 375 3
  dur := .fin false 125 5
  pid := "Primary"
  tid := none
  ph := "X"
  s := none
  id := "0x0"
  args := [("startTime", .number (.fin false 3 0)), ("duration", .number (.fin false 1 2)),
           ("url", .string "http://a/b.js")]

/-- The entry `resourceWithUrl` after the call: its `url` has been overwritten. -/
def resourceWithUrlAfter : JSObject :=
  [("name", .string "http://a/b.js"), ("entryType", .string "resource"),
   ("startTime", .number (.fin false 3 0)), ("duration", .number (.fin false 1 2)),
   ("url", .string "http://a/b.js")]

/-! ## Numbers as rationals -/

/-- The rational number a finite Number denotes (`none` for `NaN` and `±Infinity`). -/
def JSNum.toRat? : JSNum → Option ℚ
  | .fin neg m e => some ((if neg then -1 else 1) * (m : ℚ) * (2 : ℚ) ^ e)
  | _ => none

/-- Whether `±m·2^e` is a value a double can take: at most 53 significant bits,
exponent at least `-1074`, magnitude below `2^1024`. -/
def JSNum.isDouble : JSNum → Bool
  | .fin _ m e => decide (m < 2 ^ 53 ∧ -1074 ≤ e ∧ (bitLength m : Int) + e ≤ 1024)
  | _ => true

/-- The entry `{name: 'mark-b', entryType: 'mark', startTime: 1.005, duration: 0}`;
the double nearest to 1.005 is `1131529406376837·2^-50`. -/
def fractionalMark : JSObject :=
  [("name", .string "mark-b"), ("entryType", .string "mark"),
   ("startTime", .number (.fin false 1131529406376837 (-50))),
   ("duration", .number (.fin false 0 0))]

/-- The event for `fractionalMark` at index 0: `ts` is `8840073487319039·2^-43`,
which JavaScript prints as `1004.9999999999999`. -/
def fractionalMarkEvent : TraceEvent where
  name := .string "mark-b"
  cat := .string "mark"
  ts := .fin false 8840073487319039 (-43)
  dur := .fin false 0 0
  pid := "Marks"
  tid := none
  ph := "n"
  s := some "t"
  id := "0x0"
  args := [("startTime", .number (.fin false 1131529406376837 (-50))),
           ("duration", .number (.fin false 0 0))]

/-! ## Definitions for the loop as a whole -/

/-- The loop without its accumulators: the events and the final entries for `es`,
with the counter starting at `id`. -/
def loopResult (rt : Runtime) : Nat → List JSObject →
    Except JSError (List TraceEvent × List JSObject)
  | _, [] => .ok ([], [])
  | id, entry :: rest =>
    match traceEventOfEntry rt id entry with
    | .error err => .error err
    | .ok (ev, entry1) =>
      match loopResult rt (id + 1) rest with
      | .error err => .error err
      | .ok (evs, rest1) => .ok (ev :: evs, entry1 :: rest1)

/-- The events `evs` with the id of the j-th one replaced by `'0x' + hex(start + j)`. -/
def withIdsFrom : Nat → List TraceEvent → List TraceEvent
  | _, [] => []
  | start, ev :: rest =>
    { ev with id := "0x" ++ toString16 start } :: withIdsFrom (start + 1) rest

/-- Whether a value is a primitive: not an array and not an object. -/
def isPrimitive : JSValue → Bool
  | .array _ => false
  | .object _ => false
  | _ => true

/-- The entry `{entryType: 'measure', startTime: 5, duration: 0}`, which has no `name`. -/
def namelessMeasure : JSObject :=
  [("entryType", .string "measure"), ("startTime", .number (.fin false 5 0)),
   ("duration", .number (.fin false 0 0))]

/-- The entry `{name: 'mark-a', entryType: 'mark', startTime: 5, duration: 0, __proto__: 7}`
as `JSON.parse` builds it, with `__proto__` an own key. -/
def protoMark : JSObject :=
  [("name", .string "mark-a"), ("entryType", .string "mark"),
   ("startTime", .number (.fin false 5 0)), ("duration", .number (.fin false 0 0)),
   ("__proto__", .number (.fin false 7 0))]

/-- The event for `sampleResource` when it is the only entry (index 0). -/
def loneResourceEvent : TraceEvent := { sampleResourceEvent with id := "0x0" }

/-- The entry `sampleResource` after a call: it has gained the key `url`. -/
def sampleResourceAfter : JSObject := sampleResource ++ [("url", .string "http://a/b.js")]

/-- The entry `{duration: 'soon'}`: no `name`, no `entryType`, no `startTime`, and a
`duration` that is not a number. -/
def malformedEntry : JSObject := [("duration", .string "soon")]

/-! ## Writing the trace file and the command-line entry point -/

/-- What a path of the file system holds. -/
inductive FSNode where
  | file (content : String)
  | directory
  deriving DecidableEq

/-- The file system: what each path holds, if anything. -/
abbrev FileSystem := String → Option FSNode

/-- The exceptions that end a run of the wrapper functions. -/
inductive Thrown where
  /-- Raised inside `generateTraceEvents`. -/
  | mapper (err : JSError)
  /-- Raised by `fs.readFileSync` or `fs.writeFileSync`. -/
  | fileSystem
  /-- Raised by `JSON.parse` or by reading `timing.entries`. -/
  | parse
  deriving DecidableEq

/-- How a run ends: by returning, by `process.exit(code)`, or by an exception. -/
inductive Outcome where
  | returned
  | exited (code : Nat)
  | threw (what : Thrown)
  deriving DecidableEq

/-- The state of the process that the wrapper functions read and change: the
arguments, the working directory, the file system and the two console streams. -/
structure Process where
  argv : List String
  cwd : String
  fs : FileSystem
  stdout : List String
  stderr : List String

/-- Library behaviour of Node.js that the wrapper functions rely on but do not
define. -/
structure Host where
  /-- `path.resolve(cwd, p)`. -/
  resolve : String → String → String
  /-- `JSON.stringify(evt)` for a trace event. -/
  stringify : TraceEvent → String
  /-- `JSON.parse(text).timing.entries` as the loop of `generateTraceEvents` sees it,
  each element by its own enumerable properties; or the exception raised when the
  text is not JSON or the entries cannot be read. -/
  readEntries : String → Except Thrown (List JSObject)
  /-- `fs.writeFileSync(path, text, 'utf8')` in a process whose working directory is
  `cwd`, on the file system `fs`: the file system after the write, or the exception
  raised when the operating system refuses it (the path is a directory, a parent
  directory is missing, permission is denied). A relative path is resolved against
  `cwd`. -/
  writeFileSync : (cwd : String) → (fs : FileSystem) → (path text : String) →
    Except Thrown FileSystem

/-- `fs.readFileSync(path, 'utf8')`. -/
def readFileSync (fs : FileSystem) (path : String) : Except Thrown String :=
  match fs path with
  | some (.file content) => .ok content
  | _ => .error .fileSystem

/-- `strings.join(sep)` on an array of strings. -/
def joinStrings (sep : String) : List String → String
  | [] => ""
  | [x] => x
  | x :: y :: rest => x ++ sep ++ joinStrings sep (y :: rest)

/-- Lines 84-87: the template literal around the serialised events. -/
def traceFileText (lines : List String) : String :=
  "\n  \x7b \"traceEvents\": [\n    " ++ joinStrings ",\n" lines ++ "\n  ]\x7d"

/-- Lines 93-96: the confirmation printed with `console.log`. -/
def savedMessage (traceFilePath : String) : String :=
  "\n  > Timing trace file saved to: " ++ traceFilePath ++
    "\n  > Open this file in chrome://tracing\n  "

/-- Lines 89-91: the path that is written: the given one, or `run-timing.trace.json`
in the working directory when `traceFilePath` is absent (`none`) or empty. -/
def traceFilePathOrDefault (host : Host) (p : Process) (traceFilePath : Option String) :
    String :=
  match traceFilePath with
  | none => host.resolve p.cwd "run-timing.trace.json"
  | some given =>
    if given = "" then host.resolve p.cwd "run-timing.trace.json" else given

/-- Lines 81-97: `saveTraceOfTimings(entries, traceFilePath)`; an absent
`traceFilePath` is `none`. -/
def saveTraceOfTimings (host : Host) (rt : Runtime) (entries : List JSObject)
    (traceFilePath : Option String) (p : Process) : Outcome × Process :=
  match generateTraceEvents rt entries with
  | .error err => (.threw (.mapper err), p)
  | .ok (events, _) =>
    let jsonStr := traceFileText (events.map host.stringify)
    let traceFilePath1 := traceFilePathOrDefault host p traceFilePath
    match host.writeFileSync p.cwd p.fs traceFilePath1 jsonStr with
    | .error what => (.threw what, p)
    | .ok fs1 =>
      (.returned,
        { p with fs := fs1, stdout := p.stdout ++ [savedMessage traceFilePath1] })

/-- Lines 103-110: `printErrorAndQuit(msg)`: prints to the error stream and ends
the process with exit code 1. -/
def printErrorAndQuit (msg : String) (p : Process) : Outcome × Process :=
  (.exited 1,
    { p with stderr := p.stderr ++
        ["ERROR:\n  > " ++ msg ++ "\n  > Example:\n  >     yarn timing results.json\n  "] })

/-- Lines 102-123: `saveTraceFromCLI()`. -/
def saveTraceFromCLI (host : Host) (rt : Runtime) (p : Process) : Outcome × Process :=
  match p.argv[2]? with
  | none => printErrorAndQuit "Lighthouse JSON results path not provided" p
  | some arg =>
    if arg = "" then printErrorAndQuit "Lighthouse JSON results path not provided" p
    else
      let filename := host.resolve p.cwd arg
      if (p.fs filename).isNone then
        printErrorAndQuit "Lighthouse JSON results not found." p
      else
        match readFileSync p.fs filename with
        | .error what => (.threw what, p)
        | .ok text =>
          match host.readEntries text with
          | .error what => (.threw what, p)
          | .ok entries =>
            saveTraceOfTimings host rt entries (some (filename ++ ".run-timing.trace.json")) p

/-- A host for evaluating examples: paths resolve by joining with `/`, an event is
serialised by its id alone, no file content parses, and a write to a path puts the
file there. -/
def sampleHost : Host where
  resolve := fun cwd p => cwd ++ "/" ++ p
  stringify := fun ev => "\"" ++ ev.id ++ "\""
  readEntries := fun _ => .error .parse
  writeFileSync := fun _ fs path text =>
    .ok (fun q => if q = path then some (.file text) else fs q)

/-- The lines for the serialised events `lines`, the first one after `indent`: each
event on a line of its own, every one but the last followed by a comma; with no
event, the line holds `indent` alone. -/
def eventLines : String → List String → List String
  | indent, [] => [indent]
  | indent, [x] => [indent ++ x]
  | indent, x :: y :: rest => (indent ++ x ++ ",") :: eventLines "" (y :: rest)

/-- The lines of the trace file for the serialised events `lines`: an empty line,
the header with the key `"traceEvents"` and the opening bracket, the event lines,
and the closing line. -/
def traceFileLines (lines : List String) : List String :=
  ["", "  \x7b \"traceEvents\": ["] ++ eventLines "    " lines ++ ["  ]\x7d"]

/-- The lines of a text: the runs of characters between its newline characters. -/
def splitLines : List Char → List (List Char)
  | [] => [[]]
  | c :: cs =>
    if c = '\n' then [] :: splitLines cs
    else
      match splitLines cs with
      | [] => [[c]]
      | line :: lines => (c :: line) :: lines

/-- A process started without a results path, in `/work`, on an empty file system. -/
def sampleProcess : Process where
  argv := ["node", "generate-lh-timing-trace.js"]
  cwd := "/work"
  fs := fun _ => none
  stdout := []
  stderr := []

/-! ## The loop -/

theorem forOfLoop_ok (rt : Runtime) :
    ∀ (es : List JSObject) (tr : List TraceEvent) (id : Nat) (vis : List JSObject)
      (tr1 : List TraceEvent) (vis1 : List JSObject),
      forOfLoop rt es tr id vis = .ok (tr1, vis1) →
      ∃ evs es1, tr1 = tr ++ evs ∧ vis1 = vis ++ es1 ∧
        evs.length = es.length ∧ es1.length = es.length ∧
        ∀ i e, es[i]? = some e →
          ∃ ev e1, evs[i]? = some ev ∧ es1[i]? = some e1 ∧
            traceEventOfEntry rt (id + i) e = .ok (ev, e1) := by
  intro es
  induction es with
  | nil =>
    intro tr id vis tr1 vis1 h
    simp only [forOfLoop, Except.ok.injEq, Prod.mk.injEq] at h
    exact ⟨[], [], by simp [h.1], by simp [h.2], rfl, rfl, by simp⟩
  | cons e rest ih =>
    intro tr id vis tr1 vis1 h
    rw [forOfLoop] at h
    cases hb : traceEventOfEntry rt id e with
    | error err => rw [hb] at h; cases h
    | ok p =>
      obtain ⟨ev, e1⟩ := p
      rw [hb] at h
      obtain ⟨evs, es1, h1, h2, h3, h4, h5⟩ := ih _ _ _ _ _ h
      refine ⟨ev :: evs, e1 :: es1, by simp [h1], by simp [h2], by simp [h3], by simp [h4], ?_⟩
      intro i x hx
      cases i with
      | zero =>
        simp only [List.getElem?_cons_zero, Option.some.injEq] at hx
        subst hx
        exact ⟨ev, e1, by simp, by simp, by simpa using hb⟩
      | succ j =>
        simp only [List.getElem?_cons_succ] at hx
        obtain ⟨ev2, e2, g1, g2, g3⟩ := h5 j x hx
        refine ⟨ev2, e2, by simpa using g1, by simpa using g2, ?_⟩
        have : id + (j + 1) = id + 1 + j := by omega
        rw [this]; exact g3

/-- Every event of a returning call is the loop body run on the entry at the same
index with the counter equal to that index. -/
theorem generateTraceEvents_ok (rt : Runtime) (entries : List JSObject)
    (events : List TraceEvent) (entries1 : List JSObject)
    (h : generateTraceEvents rt entries = .ok (events, entries1)) :
    events.length = entries.length ∧ entries1.length = entries.length ∧
      ∀ i entry ev, entries[i]? = some entry → events[i]? = some ev →
        ∃ entry1, entries1[i]? = some entry1 ∧
          traceEventOfEntry rt i entry = .ok (ev, entry1) := by
  obtain ⟨evs, es1, h1, h2, h3, h4, h5⟩ := forOfLoop_ok rt entries [] 0 [] events entries1 h
  simp only [List.nil_append] at h1 h2
  subst h1 h2
  refine ⟨h3, h4, ?_⟩
  intro i entry ev hi hev
  obtain ⟨ev2, e2, g1, g2, g3⟩ := h5 i entry hi
  rw [g1] at hev
  simp only [Option.some.injEq] at hev
  subst hev
  exact ⟨e2, g2, by simpa using g3⟩


/-! ## Objects -/

theorem getProp_setProp_same (o : JSObject) (key : String) (v : JSValue) :
    getProp (setProp o key v) key = v := by
  induction o with
  | nil => simp [setProp, getProp]
  | cons p rest ih =>
    obtain ⟨k, w⟩ := p
    by_cases hk : k = key
    · simp [setProp, getProp, hk]
    · simp [setProp, getProp, hk, ih]

theorem getProp_setProp_other (o : JSObject) (key key1 : String) (v : JSValue)
    (hne : key ≠ key1) : getProp (setProp o key v) key1 = getProp o key1 := by
  induction o with
  | nil => simp [setProp, getProp, hne]
  | cons p rest ih =>
    obtain ⟨k, w⟩ := p
    by_cases hk : k = key
    · subst hk
      simp [setProp, getProp, hne]
    · by_cases hk1 : k = key1
      · subst hk1
        simp [setProp, getProp, hk]
      · simp [setProp, getProp, hk, hk1, ih]

theorem hasOwn_setProp_same (o : JSObject) (key : String) (v : JSValue) :
    hasOwn (setProp o key v) key = true := by
  induction o with
  | nil => simp [setProp, hasOwn]
  | cons p rest ih =>
    obtain ⟨k, w⟩ := p
    by_cases hk : k = key
    · simp [setProp, hasOwn, hk]
    · simp [setProp, hasOwn, hk, ih]

theorem hasOwn_setProp_other (o : JSObject) (key key1 : String) (v : JSValue)
    (hne : key ≠ key1) : hasOwn (setProp o key v) key1 = hasOwn o key1 := by
  induction o with
  | nil => simp [setProp, hasOwn, hne]
  | cons p rest ih =>
    obtain ⟨k, w⟩ := p
    by_cases hk : k = key
    · subst hk
      simp [setProp, hasOwn, hne]
    · by_cases hk1 : k = key1
      · subst hk1
        simp [setProp, hasOwn, hk]
      · simp [setProp, hasOwn, hk, hk1, ih]

theorem hasOwn_iff_mem_keys (o : JSObject) (key : String) :
    hasOwn o key = true ↔ key ∈ objectKeys o := by
  induction o with
  | nil => simp [hasOwn, objectKeys]
  | cons p rest ih =>
    obtain ⟨k, w⟩ := p
    by_cases hk : k = key
    · simp [hasOwn, objectKeys, hk]
    · have hk1 : ¬ key = k := fun h => hk h.symm
      simp only [objectKeys] at ih
      simp [hasOwn, objectKeys, hk, hk1, ih]

theorem getProp_of_not_hasOwn (o : JSObject) (key : String) (h : hasOwn o key = false) :
    getProp o key = .undefined := by
  induction o with
  | nil => simp [getProp]
  | cons p rest ih =>
    obtain ⟨k, w⟩ := p
    by_cases hk : k = key
    · simp [hasOwn, hk] at h
    · simp only [hasOwn, hk, if_false] at h
      simp [getProp, hk, ih h]

theorem strictEqualsString_iff (v : JSValue) (lit : String) :
    strictEqualsString v lit = true ↔ v = .string lit := by
  cases v <;> simp [strictEqualsString]

/-! ## The loop body -/

/-- The fields of the event the loop body builds, and the entry it leaves. -/
theorem traceEventOfEntry_ok (rt : Runtime) (id : Nat) (entry : JSObject)
    (ev : TraceEvent) (entry1 : JSObject)
    (h : traceEventOfEntry rt id entry = .ok (ev, entry1)) :
    entry1 = (if getProp entry "entryType" = .string "resource"
      then setProp entry "url" (getProp entry "name") else entry) ∧
    ev.name = (if getProp entry "entryType" = .string "resource"
      then .string "resource" else getProp entry "name") ∧
    ev.cat = getProp entry "entryType" ∧
    times1000 rt (getProp entry "startTime") = .ok ev.ts ∧
    times1000 rt (getProp entry "duration") = .ok ev.dur ∧
    classify entry = .ok (ev.pid, ev.tid) ∧
    ev.ph = (if strictEqualsZero (getProp entry "duration") then "n" else "X") ∧
    ev.s = (if strictEqualsZero (getProp entry "duration") then some "t" else none) ∧
    ev.id = "0x" ++ toString16 id ∧
    ev.args = buildArgs entry1 := by
  unfold traceEventOfEntry at h
  cases hts : times1000 rt (getProp entry "startTime") with
  | error err => simp [hts] at h
  | ok ts =>
    cases hdur : times1000 rt (getProp entry "duration") with
    | error err => simp [hts, hdur] at h
    | ok dur =>
      cases hc : classify entry with
      | error err => simp [hts, hdur, hc] at h
      | ok p =>
        obtain ⟨pid, tid⟩ := p
        simp only [hts, hdur, hc, Except.ok.injEq, Prod.mk.injEq] at h
        obtain ⟨hev, he1⟩ := h
        have hd : getProp (if strictEqualsString (getProp entry "entryType") "resource" = true
            then setProp entry "url" (getProp entry "name") else entry) "duration"
            = getProp entry "duration" := by
          split
          · exact getProp_setProp_other _ _ _ _ (by decide)
          · rfl
        rw [hd] at hev
        subst hev
        subst he1
        by_cases hr : getProp entry "entryType" = .string "resource"
        · have hr1 : strictEqualsString (getProp entry "entryType") "resource" = true :=
            (strictEqualsString_iff _ _).2 hr
          simp [hr, hr1, strictEqualsString]
        · have hr1 : ¬ strictEqualsString (getProp entry "entryType") "resource" = true :=
            fun hh => hr ((strictEqualsString_iff _ _).1 hh)
          simp [hr, hr1]

/-! ## Hexadecimal numerals -/

theorem hexDigitValue_digitChar (d : Nat) (hd : d < 16) :
    hexDigitValue (Nat.digitChar d) = some d := by
  interval_cases d <;> decide

theorem digitChar_eq_zero_iff (d : Nat) (hd : d < 16) : Nat.digitChar d = '0' ↔ d = 0 := by
  interval_cases d <;> decide

theorem hexValueAux_append (xs ys : List Char) (acc : Nat) :
    hexValueAux (xs ++ ys) acc = (hexValueAux xs acc).bind (fun a => hexValueAux ys a) := by
  induction xs generalizing acc with
  | nil => simp [hexValueAux]
  | cons c cs ih =>
    simp only [List.cons_append, hexValueAux]
    cases hexDigitValue c with
    | none => simp
    | some d => simp [ih]

/-- The digits `Nat.toDigitsCore` puts in front of `ds` form the numeral of `n`. -/
theorem toDigitsCore_hex (fuel : Nat) :
    ∀ (n : Nat) (ds : List Char), n < fuel →
      ∃ xs, Nat.toDigitsCore 16 fuel n ds = xs ++ ds ∧ xs ≠ [] ∧
        (∀ acc, hexValueAux xs acc = some (acc * 16 ^ xs.length + n)) ∧
        (xs.head? = some '0' → xs = ['0']) ∧ (n ≠ 0 → xs.head? ≠ some '0') := by
  induction fuel with
  | zero => intro n ds h; omega
  | succ fuel ih =>
    intro n ds hn
    have hmod : n % 16 < 16 := Nat.mod_lt _ (by decide)
    by_cases hq : n / 16 = 0
    · have hlt : n < 16 := by omega
      have hmodn : n % 16 = n := Nat.mod_eq_of_lt hlt
      refine ⟨[Nat.digitChar (n % 16)], ?_, by simp, ?_, ?_, ?_⟩
      · simp [Nat.toDigitsCore, hq]
      · intro acc
        simp only [hexValueAux, hexDigitValue_digitChar _ hmod, List.length_singleton, pow_one]
        rw [hmodn]; congr 1; omega
      · intro hh
        simp only [List.head?_cons, Option.some.injEq] at hh
        rw [hh]
      · intro hne hh
        simp only [List.head?_cons, Option.some.injEq] at hh
        have := (digitChar_eq_zero_iff _ hmod).1 hh
        omega
    · have hlt : n / 16 < fuel := by omega
      obtain ⟨xs, h1, h2, h3, h4, h5⟩ := ih (n / 16) (Nat.digitChar (n % 16) :: ds) hlt
      refine ⟨xs ++ [Nat.digitChar (n % 16)], ?_, by simp, ?_, ?_, ?_⟩
      · simp [Nat.toDigitsCore, hq, h1]
      · intro acc
        rw [hexValueAux_append, h3 acc]
        simp only [Option.some_bind, hexValueAux, hexDigitValue_digitChar _ hmod,
          List.length_append, List.length_singleton, Option.some.injEq]
        rw [pow_succ]
        have := Nat.div_add_mod n 16
        nlinarith [this]
      · intro hh
        exfalso
        apply h5 hq
        cases xs with
        | nil => exact absurd rfl h2
        | cons x rest => simpa using hh
      · intro _ hh
        apply h5 hq
        cases xs with
        | nil => exact absurd rfl h2
        | cons x rest => simpa using hh

theorem toDigits_isHexNumeral (n : Nat) : IsHexNumeral (Nat.toDigits 16 n) n := by
  obtain ⟨xs, h1, h2, h3, h4, _⟩ := toDigitsCore_hex (n + 1) n [] (Nat.lt_succ_self n)
  simp only [List.append_nil] at h1
  unfold IsHexNumeral hexValue Nat.toDigits
  rw [h1]
  refine ⟨?_, h4⟩
  simp [h2, h3 0]

theorem idNumber_id (n : Nat) : idNumber ("0x" ++ toString16 n) = some n := by
  have h : ("0x" ++ toString16 n).data = '0' :: 'x' :: Nat.toDigits 16 n := by
    simp [toString16, String.data_append]
  unfold idNumber
  rw [h]
  exact (toDigits_isHexNumeral n).1

/-! ## When the function returns -/

/-- The loop body returns when both multiplications succeed and, for a `'measure'`
entry, the name is a string. -/
theorem traceEventOfEntry_returns (rt : Runtime) (id : Nat) (entry : JSObject)
    (hts : ∃ x, toNumber rt (getProp entry "startTime") = .ok x)
    (hdur : ∃ x, toNumber rt (getProp entry "duration") = .ok x)
    (hname : getProp entry "entryType" = .string "measure" →
      ∃ name, getProp entry "name" = .string name) :
    ∃ ev entry1, traceEventOfEntry rt id entry = .ok (ev, entry1) := by
  obtain ⟨x, hx⟩ := hts
  obtain ⟨y, hy⟩ := hdur
  have hc : ∃ p, classify entry = .ok p := by
    unfold classify
    by_cases hmark : getProp entry "entryType" = .string "mark"
    · rw [if_pos ((strictEqualsString_iff _ _).2 hmark)]
      exact ⟨_, rfl⟩
    · have h1 : ¬ strictEqualsString (getProp entry "entryType") "mark" = true :=
        fun hh => hmark ((strictEqualsString_iff _ _).1 hh)
      by_cases hmeas : getProp entry "entryType" = .string "measure"
      · obtain ⟨name, hn⟩ := hname hmeas
        simp only [if_neg h1, if_pos ((strictEqualsString_iff _ _).2 hmeas), hn]
        split_ifs <;> exact ⟨_, rfl⟩
      · have h2 : ¬ strictEqualsString (getProp entry "entryType") "measure" = true :=
          fun hh => hmeas ((strictEqualsString_iff _ _).1 hh)
        simp only [if_neg h1, if_neg h2]
        exact ⟨_, rfl⟩
  obtain ⟨⟨pid, tid⟩, hp⟩ := hc
  unfold traceEventOfEntry times1000
  simp only [hx, hy, hp]
  exact ⟨_, _, rfl⟩

/-- The loop returns when its body returns on every remaining entry. -/
theorem forOfLoop_returns (rt : Runtime) :
    ∀ (es : List JSObject) (tr : List TraceEvent) (id : Nat) (vis : List JSObject),
      (∀ entry ∈ es, ∀ k, ∃ ev entry1, traceEventOfEntry rt k entry = .ok (ev, entry1)) →
      ∃ tr1 vis1, forOfLoop rt es tr id vis = .ok (tr1, vis1) := by
  intro es
  induction es with
  | nil => intro tr id vis _; exact ⟨tr, vis, rfl⟩
  | cons e rest ih =>
    intro tr id vis hall
    obtain ⟨ev, e1, hb⟩ := hall e (List.mem_cons_self _ _) id
    rw [forOfLoop, hb]
    exact ih _ _ _ (fun entry hmem k => hall entry (List.mem_cons_of_mem _ hmem) k)

/-- The function returns on every list whose entries have `startTime` and `duration`
convertible to numbers and, where `entryType` is `'measure'`, a string `name`. -/
theorem generateTraceEvents_returns (rt : Runtime) (entries : List JSObject)
    (hall : ∀ entry ∈ entries,
      (∃ x, toNumber rt (getProp entry "startTime") = .ok x) ∧
      (∃ x, toNumber rt (getProp entry "duration") = .ok x) ∧
      (getProp entry "entryType" = .string "measure" →
        ∃ name, getProp entry "name" = .string name)) :
    ∃ events entries1, generateTraceEvents rt entries = .ok (events, entries1) :=
  forOfLoop_returns rt entries [] 0 []
    (fun entry hmem k =>
      traceEventOfEntry_returns rt k entry (hall entry hmem).1 (hall entry hmem).2.1
        (hall entry hmem).2.2)

/-! ## Claims about `generateTraceEvents` -/

/-- C1: when `generateTraceEvents` returns on a list of N entries, the result has
exactly N events, the event at index i has `cat` equal to the `entryType` of the
entry at index i and, unless that `entryType` is `'resource'`, `name` equal to that
entry's `name`; the empty list yields the empty list. -/
theorem generateTraceEvents_length_cat_name (rt : Runtime) (entries : List JSObject)
    (events : List TraceEvent) (entries1 : List JSObject)
    (h : generateTraceEvents rt entries = .ok (events, entries1))
    (i : Nat) (entry : JSObject) (hi : entries[i]? = some entry) :
    events.length = entries.length ∧
    (∃ ev : TraceEvent, events[i]? = some ev ∧ ev.cat = getProp entry "entryType" ∧
      (getProp entry "entryType" ≠ .string "resource" → ev.name = getProp entry "name")) ∧
    generateTraceEvents rt [] = .ok ([], []) := by
  obtain ⟨hlen, _, hall⟩ := generateTraceEvents_ok rt entries events entries1 h
  refine ⟨hlen, ?_, rfl⟩
  have hlt : i < events.length := by
    rw [hlen]
    exact (List.getElem?_eq_some_iff.1 hi).1
  refine ⟨events[i], List.getElem?_eq_getElem hlt, ?_⟩
  obtain ⟨entry1, _, hbody⟩ := hall i entry events[i] hi (List.getElem?_eq_getElem hlt)
  obtain ⟨_, hname, hcat, _⟩ := traceEventOfEntry_ok rt i entry _ _ hbody
  refine ⟨hcat, ?_⟩
  intro hne
  rw [hname, if_neg hne]

/-- C1 on the sample entries, at the measure entry (index 1). -/
theorem generateTraceEvents_length_cat_name_witness :
    (generateTraceEvents numericRuntime sampleEntries = .ok (sampleEvents, sampleEntriesAfter) ∧
      sampleEntries[1]? = some sampleMeasure) ∧
    sampleEvents.length = sampleEntries.length ∧
    (∃ ev : TraceEvent, sampleEvents[1]? = some ev ∧
      ev.cat = getProp sampleMeasure "entryType" ∧
      (getProp sampleMeasure "entryType" ≠ .string "resource" →
        ev.name = getProp sampleMeasure "name")) ∧
    generateTraceEvents numericRuntime [] = .ok ([], []) :=
  ⟨⟨rfl, rfl⟩, generateTraceEvents_length_cat_name numericRuntime sampleEntries sampleEvents
    sampleEntriesAfter rfl 1 sampleMeasure rfl⟩

/-- C2: the id of the event at index i is `'0x'` followed by the lowercase base-16
numeral of i without leading zeros; index 0 gives `'0x0'`, index 10 gives `'0xa'`,
index 16 gives `'0x10'`. -/
theorem generateTraceEvents_id_hex (rt : Runtime) (entries : List JSObject)
    (events : List TraceEvent) (entries1 : List JSObject)
    (h : generateTraceEvents rt entries = .ok (events, entries1))
    (i : Nat) (ev : TraceEvent) (hev : events[i]? = some ev) :
    (∃ ds : List Char, ev.id = "0x" ++ String.mk ds ∧ IsHexNumeral ds i) ∧
    (i = 0 → ev.id = "0x0") ∧ (i = 10 → ev.id = "0xa") ∧ (i = 16 → ev.id = "0x10") := by
  obtain ⟨hlen, _, hall⟩ := generateTraceEvents_ok rt entries events entries1 h
  have hlt : i < entries.length := by
    rw [← hlen]
    exact (List.getElem?_eq_some_iff.1 hev).1
  obtain ⟨entry1, _, hbody⟩ := hall i entries[i] ev (List.getElem?_eq_getElem hlt) hev
  have hid : ev.id = "0x" ++ toString16 i :=
    (traceEventOfEntry_ok rt i _ _ _ hbody).2.2.2.2.2.2.2.2.1
  refine ⟨⟨Nat.toDigits 16 i, hid, toDigits_isHexNumeral i⟩, ?_, ?_, ?_⟩
  · intro h0; rw [hid, h0]; rfl
  · intro h0; rw [hid, h0]; rfl
  · intro h0; rw [hid, h0]; rfl

/-- C2 on the sample entries, at index 2. -/
theorem generateTraceEvents_id_hex_witness :
    (generateTraceEvents numericRuntime sampleEntries = .ok (sampleEvents, sampleEntriesAfter) ∧
      sampleEvents[2]? = some sampleResourceEvent) ∧
    ∃ ds : List Char, sampleResourceEvent.id = "0x" ++ String.mk ds ∧ IsHexNumeral ds 2 :=
  ⟨⟨rfl, rfl⟩, (generateTraceEvents_id_hex numericRuntime sampleEntries sampleEvents
    sampleEntriesAfter rfl 2 sampleResourceEvent rfl).1⟩

/-- C3: the ids of the events are pairwise distinct, and the integer denoted by the
hexadecimal numeral after `'0x'` is strictly increasing with the position. -/
theorem generateTraceEvents_id_unique_increasing (rt : Runtime) (entries : List JSObject)
    (events : List TraceEvent) (entries1 : List JSObject)
    (h : generateTraceEvents rt entries = .ok (events, entries1))
    (i j : Nat) (evi evj : TraceEvent)
    (hi : events[i]? = some evi) (hj : events[j]? = some evj) :
    (i ≠ j → evi.id ≠ evj.id) ∧
    (i < j → ∃ a b : Nat, idNumber evi.id = some a ∧ idNumber evj.id = some b ∧ a < b) := by
  obtain ⟨hlen, _, hall⟩ := generateTraceEvents_ok rt entries events entries1 h
  have key : ∀ (k : Nat) (ev : TraceEvent), events[k]? = some ev → idNumber ev.id = some k := by
    intro k ev hk
    have hlt : k < entries.length := by
      rw [← hlen]
      exact (List.getElem?_eq_some_iff.1 hk).1
    obtain ⟨entry1, _, hbody⟩ := hall k entries[k] ev (List.getElem?_eq_getElem hlt) hk
    have hid : ev.id = "0x" ++ toString16 k :=
      (traceEventOfEntry_ok rt k _ _ _ hbody).2.2.2.2.2.2.2.2.1
    rw [hid]
    exact idNumber_id k
  have hni := key i evi hi
  have hnj := key j evj hj
  refine ⟨?_, ?_⟩
  · intro hne heq
    rw [heq, hnj] at hni
    exact hne (Option.some.inj hni).symm
  · intro hlt
    exact ⟨i, j, hni, hnj, hlt⟩

/-- C3 on the sample entries, at indices 0 and 2. -/
theorem generateTraceEvents_id_unique_increasing_witness :
    (generateTraceEvents numericRuntime sampleEntries = .ok (sampleEvents, sampleEntriesAfter) ∧
      sampleEvents[0]? = some sampleMarkEvent ∧ sampleEvents[2]? = some sampleResourceEvent) ∧
    ((0 ≠ 2 → sampleMarkEvent.id ≠ sampleResourceEvent.id) ∧
      (0 < 2 → ∃ a b : Nat, idNumber sampleMarkEvent.id = some a ∧
        idNumber sampleResourceEvent.id = some b ∧ a < b)) :=
  ⟨⟨rfl, rfl, rfl⟩, generateTraceEvents_id_unique_increasing numericRuntime sampleEntries
    sampleEvents sampleEntriesAfter rfl 0 2 sampleMarkEvent sampleResourceEvent rfl rfl⟩

theorem strictEqualsZero_iff (v : JSValue) :
    strictEqualsZero v = true ↔ ∃ (neg : Bool) (e : Int), v = .number (.fin neg 0 e) := by
  cases v with
  | number x =>
    cases x with
    | fin neg m e =>
      simp only [strictEqualsZero, JSNum.isZero, beq_iff_eq, JSValue.number.injEq,
        JSNum.fin.injEq]
      constructor
      · intro hm; exact ⟨neg, e, rfl, hm, rfl⟩
      · rintro ⟨_, _, _, hm, _⟩; exact hm
    | nan => simp [strictEqualsZero, JSNum.isZero]
    | inf neg => simp [strictEqualsZero, JSNum.isZero]
  | _ => simp [strictEqualsZero]

/-- One event of a returning call, with the loop body that produced it. -/
theorem generateTraceEvents_event (rt : Runtime) (entries : List JSObject)
    (events : List TraceEvent) (entries1 : List JSObject)
    (h : generateTraceEvents rt entries = .ok (events, entries1))
    (i : Nat) (entry : JSObject) (ev : TraceEvent)
    (hi : entries[i]? = some entry) (hev : events[i]? = some ev) :
    ∃ entry1, traceEventOfEntry rt i entry = .ok (ev, entry1) := by
  obtain ⟨_, _, hall⟩ := generateTraceEvents_ok rt entries events entries1 h
  obtain ⟨entry1, _, hbody⟩ := hall i entry ev hi hev
  exact ⟨entry1, hbody⟩

/-- C4: if the entry's `duration` is the Number 0 (`+0` or `-0`) the event has
`ph = 'n'` and `s = 't'`; if it is anything else the event has `ph = 'X'` and no
`s` field. -/
theorem generateTraceEvents_ph_s (rt : Runtime) (entries : List JSObject)
    (events : List TraceEvent) (entries1 : List JSObject)
    (h : generateTraceEvents rt entries = .ok (events, entries1))
    (i : Nat) (entry : JSObject) (ev : TraceEvent)
    (hi : entries[i]? = some entry) (hev : events[i]? = some ev) :
    ((∃ (neg : Bool) (e : Int), getProp entry "duration" = .number (.fin neg 0 e)) →
      ev.ph = "n" ∧ ev.s = some "t") ∧
    ((¬ ∃ (neg : Bool) (e : Int), getProp entry "duration" = .number (.fin neg 0 e)) →
      ev.ph = "X" ∧ ev.s = none) := by
  obtain ⟨entry1, hbody⟩ := generateTraceEvents_event rt entries events entries1 h i entry ev hi hev
  obtain ⟨_, _, _, _, _, _, hph, hs, _⟩ := traceEventOfEntry_ok rt i entry ev entry1 hbody
  constructor
  · intro hz
    have hz1 := (strictEqualsZero_iff _).2 hz
    rw [hph, hs, if_pos hz1, if_pos hz1]
    exact ⟨rfl, rfl⟩
  · intro hz
    have hz1 : ¬ strictEqualsZero (getProp entry "duration") = true :=
      fun hh => hz ((strictEqualsZero_iff _).1 hh)
    rw [hph, hs, if_neg hz1, if_neg hz1]
    exact ⟨rfl, rfl⟩

/-- C4 on the sample entries, at the mark entry, whose duration is 0. -/
theorem generateTraceEvents_ph_s_witness :
    (generateTraceEvents numericRuntime sampleEntries = .ok (sampleEvents, sampleEntriesAfter) ∧
      sampleEntries[0]? = some sampleMark ∧ sampleEvents[0]? = some sampleMarkEvent) ∧
    sampleMarkEvent.ph = "n" ∧ sampleMarkEvent.s = some "t" :=
  ⟨⟨rfl, rfl, rfl⟩, (generateTraceEvents_ph_s numericRuntime sampleEntries sampleEvents
    sampleEntriesAfter rfl 0 sampleMark sampleMarkEvent rfl rfl).1 ⟨false, 0, rfl⟩⟩

theorem strictEqualsString_eq_false (v : JSValue) (lit : String) (h : v ≠ .string lit) :
    strictEqualsString v lit = false := by
  rw [Bool.eq_false_iff]
  exact fun hh => h ((strictEqualsString_iff _ _).1 hh)

theorem classify_pid (entry : JSObject) (pid : String) (tid : Option String)
    (h : classify entry = .ok (pid, tid)) :
    pid = (if getProp entry "entryType" = .string "mark" then "Marks"
      else if getProp entry "entryType" = .string "measure" then "Measurements"
      else "Primary") ∧
    (tid.isSome = true ↔ getProp entry "entryType" = .string "measure") := by
  unfold classify at h
  by_cases hmark : getProp entry "entryType" = .string "mark"
  · have h1 := (strictEqualsString_iff _ "mark").2 hmark
    have hne : getProp entry "entryType" ≠ .string "measure" := by rw [hmark]; decide
    simp only [h1, if_true, Except.ok.injEq, Prod.mk.injEq] at h
    obtain ⟨rfl, rfl⟩ := h
    simp [hmark]
  · have h1 := strictEqualsString_eq_false _ "mark" hmark
    by_cases hmeas : getProp entry "entryType" = .string "measure"
    · have h2 := (strictEqualsString_iff _ "measure").2 hmeas
      simp only [h1, h2, if_true, Bool.false_eq_true, if_false] at h
      rw [if_neg hmark, if_pos hmeas]
      cases hn : getProp entry "name" with
      | string name =>
        simp only [hn] at h
        split_ifs at h <;>
          (simp only [Except.ok.injEq, Prod.mk.injEq] at h
           obtain ⟨rfl, rfl⟩ := h
           simp [hmeas])
      | _ => simp [hn] at h
    · have h2 := strictEqualsString_eq_false _ "measure" hmeas
      simp only [h1, h2, Bool.false_eq_true, if_false, Except.ok.injEq, Prod.mk.injEq] at h
      obtain ⟨rfl, rfl⟩ := h
      simp [hmark, hmeas]

/-- C5: the event's `pid` is determined by `entryType` alone: `'Marks'` for `'mark'`,
`'Measurements'` for `'measure'`, and `'Primary'` for every other value, including
`'resource'` and a missing `entryType`. -/
theorem generateTraceEvents_pid (rt : Runtime) (entries : List JSObject)
    (events : List TraceEvent) (entries1 : List JSObject)
    (h : generateTraceEvents rt entries = .ok (events, entries1))
    (i : Nat) (entry : JSObject) (ev : TraceEvent)
    (hi : entries[i]? = some entry) (hev : events[i]? = some ev) :
    (getProp entry "entryType" = .string "mark" → ev.pid = "Marks") ∧
    (getProp entry "entryType" = .string "measure" → ev.pid = "Measurements") ∧
    (getProp entry "entryType" ≠ .string "mark" →
      getProp entry "entryType" ≠ .string "measure" → ev.pid = "Primary") ∧
    (getProp entry "entryType" = .string "resource" → ev.pid = "Primary") ∧
    (hasOwn entry "entryType" = false → ev.pid = "Primary") := by
  obtain ⟨entry1, hbody⟩ := generateTraceEvents_event rt entries events entries1 h i entry ev hi hev
  obtain ⟨_, _, _, _, _, hc, _⟩ := traceEventOfEntry_ok rt i entry ev entry1 hbody
  have hpid := (classify_pid entry ev.pid ev.tid hc).1
  refine ⟨?_, ?_, ?_, ?_, ?_⟩
  · intro hm; rw [hpid, if_pos hm]
  · intro hm
    have hne : getProp entry "entryType" ≠ .string "mark" := by rw [hm]; decide
    rw [hpid, if_neg hne, if_pos hm]
  · intro h1 h2; rw [hpid, if_neg h1, if_neg h2]
  · intro hr
    have h1 : getProp entry "entryType" ≠ .string "mark" := by rw [hr]; decide
    have h2 : getProp entry "entryType" ≠ .string "measure" := by rw [hr]; decide
    rw [hpid, if_neg h1, if_neg h2]
  · intro hmiss
    have hu := getProp_of_not_hasOwn entry "entryType" hmiss
    have h1 : getProp entry "entryType" ≠ .string "mark" := by rw [hu]; decide
    have h2 : getProp entry "entryType" ≠ .string "measure" := by rw [hu]; decide
    rw [hpid, if_neg h1, if_neg h2]

/-- C5 on the sample entries, at the resource entry. -/
theorem generateTraceEvents_pid_witness :
    (generateTraceEvents numericRuntime sampleEntries = .ok (sampleEvents, sampleEntriesAfter) ∧
      sampleEntries[2]? = some sampleResource ∧ sampleEvents[2]? = some sampleResourceEvent) ∧
    sampleResourceEvent.pid = "Primary" :=
  ⟨⟨rfl, rfl, rfl⟩, (generateTraceEvents_pid numericRuntime sampleEntries sampleEvents
    sampleEntriesAfter rfl 2 sampleResource sampleResourceEvent rfl rfl).2.2.2.1 rfl⟩

theorem startsWith_iff (s search : String) :
    startsWith s search = true ↔ ∃ rest : String, s = search ++ rest := by
  unfold startsWith
  rw [List.isPrefixOf_iff_prefix]
  constructor
  · rintro ⟨t, ht⟩
    refine ⟨String.mk t, ?_⟩
    apply String.ext
    simp [String.data_append, ht]
  · rintro ⟨rest, hrest⟩
    refine ⟨rest.data, ?_⟩
    rw [hrest]
    simp [String.data_append]

theorem classify_tid (entry : JSObject) (pid : String) (tid : Option String) (name : String)
    (h : classify entry = .ok (pid, tid))
    (hm : getProp entry "entryType" = .string "measure")
    (hn : getProp entry "name" = .string name) :
    tid = some (if startsWith name "audit-" = true then "Audits"
      else if startsWith name "gather-" = true then "Gatherers" else "TopLevelMeasures") := by
  unfold classify at h
  have hmark : getProp entry "entryType" ≠ .string "mark" := by rw [hm]; decide
  have h1 := strictEqualsString_eq_false _ "mark" hmark
  have h2 := (strictEqualsString_iff _ "measure").2 hm
  simp only [h1, h2, hn, if_true, Bool.false_eq_true, if_false] at h
  cases ha : startsWith name "audit-" <;> cases hg : startsWith name "gather-" <;>
    simp only [ha, hg, if_true, Bool.false_eq_true, if_false, Except.ok.injEq,
      Prod.mk.injEq] at h ⊢ <;>
    exact h.2.symm

/-- C6: for an entry with `entryType` `'measure'` and a string `name`, the event's
`tid` is `'Audits'` if the name starts with `'audit-'`, otherwise `'Gatherers'` if it
starts with `'gather-'`, otherwise `'TopLevelMeasures'`. -/
theorem generateTraceEvents_tid_measure (rt : Runtime) (entries : List JSObject)
    (events : List TraceEvent) (entries1 : List JSObject)
    (h : generateTraceEvents rt entries = .ok (events, entries1))
    (i : Nat) (entry : JSObject) (ev : TraceEvent) (name : String)
    (hi : entries[i]? = some entry) (hev : events[i]? = some ev)
    (hm : getProp entry "entryType" = .string "measure")
    (hn : getProp entry "name" = .string name) :
    ((∃ rest : String, name = "audit-" ++ rest) → ev.tid = some "Audits") ∧
    ((¬ ∃ rest : String, name = "audit-" ++ rest) →
      (∃ rest : String, name = "gather-" ++ rest) → ev.tid = some "Gatherers") ∧
    ((¬ ∃ rest : String, name = "audit-" ++ rest) →
      (¬ ∃ rest : String, name = "gather-" ++ rest) → ev.tid = some "TopLevelMeasures") := by
  obtain ⟨entry1, hbody⟩ := generateTraceEvents_event rt entries events entries1 h i entry ev hi hev
  obtain ⟨_, _, _, _, _, hc, _⟩ := traceEventOfEntry_ok rt i entry ev entry1 hbody
  have htid := classify_tid entry ev.pid ev.tid name hc hm hn
  refine ⟨?_, ?_, ?_⟩
  · intro ha
    rw [htid, if_pos ((startsWith_iff _ _).2 ha)]
  · intro ha hg
    have ha1 : ¬ startsWith name "audit-" = true := fun hh => ha ((startsWith_iff _ _).1 hh)
    rw [htid, if_neg ha1, if_pos ((startsWith_iff _ _).2 hg)]
  · intro ha hg
    have ha1 : ¬ startsWith name "audit-" = true := fun hh => ha ((startsWith_iff _ _).1 hh)
    have hg1 : ¬ startsWith name "gather-" = true := fun hh => hg ((startsWith_iff _ _).1 hh)
    rw [htid, if_neg ha1, if_neg hg1]

/-- C6 on the sample entries, at the measure entry named `audit-foo`. -/
theorem generateTraceEvents_tid_measure_witness :
    (generateTraceEvents numericRuntime sampleEntries = .ok (sampleEvents, sampleEntriesAfter) ∧
      sampleEntries[1]? = some sampleMeasure ∧ sampleEvents[1]? = some sampleMeasureEvent ∧
      getProp sampleMeasure "entryType" = .string "measure" ∧
      getProp sampleMeasure "name" = .string "audit-foo") ∧
    sampleMeasureEvent.tid = some "Audits" :=
  ⟨⟨rfl, rfl, rfl, rfl, rfl⟩, (generateTraceEvents_tid_measure numericRuntime sampleEntries
    sampleEvents sampleEntriesAfter rfl 1 sampleMeasure sampleMeasureEvent "audit-foo"
    rfl rfl rfl rfl).1 ⟨"foo", rfl⟩⟩

/-- C7: the event has a `tid` field if and only if the entry's `entryType` is
`'measure'`; events for `'mark'`, `'resource'` and every other entry type have none. -/
theorem generateTraceEvents_tid_iff (rt : Runtime) (entries : List JSObject)
    (events : List TraceEvent) (entries1 : List JSObject)
    (h : generateTraceEvents rt entries = .ok (events, entries1))
    (i : Nat) (entry : JSObject) (ev : TraceEvent)
    (hi : entries[i]? = some entry) (hev : events[i]? = some ev) :
    (ev.tid.isSome = true ↔ getProp entry "entryType" = .string "measure") ∧
    (getProp entry "entryType" ≠ .string "measure" → ev.tid = none) := by
  obtain ⟨entry1, hbody⟩ := generateTraceEvents_event rt entries events entries1 h i entry ev hi hev
  obtain ⟨_, _, _, _, _, hc, _⟩ := traceEventOfEntry_ok rt i entry ev entry1 hbody
  have htid := (classify_pid entry ev.pid ev.tid hc).2
  refine ⟨htid, ?_⟩
  intro hne
  cases ht : ev.tid with
  | none => rfl
  | some t =>
    rw [ht] at htid
    exact absurd (htid.1 rfl) hne

/-- C7 on the sample entries, at the resource entry. -/
theorem generateTraceEvents_tid_iff_witness :
    (generateTraceEvents numericRuntime sampleEntries = .ok (sampleEvents, sampleEntriesAfter) ∧
      sampleEntries[2]? = some sampleResource ∧ sampleEvents[2]? = some sampleResourceEvent) ∧
    sampleResourceEvent.tid = none :=
  ⟨⟨rfl, rfl, rfl⟩, (generateTraceEvents_tid_iff numericRuntime sampleEntries sampleEvents
    sampleEntriesAfter rfl 2 sampleResource sampleResourceEvent rfl rfl).2 (by decide)⟩

/-! ## The `args` object -/

theorem hasOwn_copyKey (entry args : JSObject) (key k : String) :
    hasOwn (copyKey entry args key) k = true ↔
      hasOwn args k = true ∨
        (k = key ∧ ¬ (k = "entryType" ∨ k = "name" ∨ k = "toJSON") ∧ k ≠ "__proto__") := by
  unfold copyKey assignArg
  by_cases hx : key = "entryType" ∨ key = "name" ∨ key = "toJSON"
  · simp only [hx, if_true]
    constructor
    · intro h; exact Or.inl h
    · rintro (h | ⟨rfl, h2, _⟩)
      · exact h
      · exact absurd hx h2
  · simp only [hx, if_false]
    by_cases hp : key = "__proto__"
    · rw [if_pos hp]
      constructor
      · intro h; exact Or.inl h
      · rintro (h | ⟨rfl, _, h3⟩)
        · exact h
        · exact absurd hp h3
    · simp only [hp, if_false]
      by_cases hk : key = k
      · subst hk
        simp [hasOwn_setProp_same, hx, hp]
      · rw [hasOwn_setProp_other _ _ _ _ hk]
        constructor
        · intro h; exact Or.inl h
        · rintro (h | ⟨rfl, _, _⟩)
          · exact h
          · exact absurd rfl hk

theorem getProp_copyKey (entry args : JSObject) (key k : String) :
    getProp (copyKey entry args key) k =
      if k = key ∧ ¬ (k = "entryType" ∨ k = "name" ∨ k = "toJSON") ∧ k ≠ "__proto__"
      then getProp entry k else getProp args k := by
  unfold copyKey assignArg
  by_cases hx : key = "entryType" ∨ key = "name" ∨ key = "toJSON"
  · have : ¬ (k = key ∧ ¬ (k = "entryType" ∨ k = "name" ∨ k = "toJSON") ∧ k ≠ "__proto__") := by
      rintro ⟨rfl, h2, _⟩; exact h2 hx
    simp only [hx, if_true, this, if_false]
  · simp only [hx, if_false]
    by_cases hp : key = "__proto__"
    · have : ¬ (k = key ∧ ¬ (k = "entryType" ∨ k = "name" ∨ k = "toJSON") ∧ k ≠ "__proto__") := by
        rintro ⟨rfl, _, h3⟩; exact h3 hp
      rw [if_pos hp, if_neg this]
    · simp only [hp, if_false]
      by_cases hk : key = k
      · subst hk
        have : key = key ∧ ¬ (key = "entryType" ∨ key = "name" ∨ key = "toJSON") ∧
            key ≠ "__proto__" := ⟨rfl, hx, hp⟩
        rw [getProp_setProp_same, if_pos this]
      · have : ¬ (k = key ∧ ¬ (k = "entryType" ∨ k = "name" ∨ k = "toJSON") ∧
            k ≠ "__proto__") := by
          rintro ⟨rfl, _, _⟩; exact hk rfl
        rw [getProp_setProp_other _ _ _ _ hk, if_neg this]

theorem hasOwn_foldl_copyKey (entry : JSObject) (ks : List String) :
    ∀ (acc : JSObject) (k : String),
      hasOwn (ks.foldl (copyKey entry) acc) k = true ↔
        hasOwn acc k = true ∨
          (k ∈ ks ∧ ¬ (k = "entryType" ∨ k = "name" ∨ k = "toJSON") ∧ k ≠ "__proto__") := by
  induction ks with
  | nil => intro acc k; simp
  | cons key rest ih =>
    intro acc k
    rw [List.foldl_cons, ih, hasOwn_copyKey]
    simp only [List.mem_cons]
    tauto

theorem getProp_foldl_copyKey (entry : JSObject) (ks : List String) :
    ∀ (acc : JSObject) (k : String),
      k ∈ ks → ¬ (k = "entryType" ∨ k = "name" ∨ k = "toJSON") → k ≠ "__proto__" →
      getProp (ks.foldl (copyKey entry) acc) k = getProp entry k := by
  induction ks with
  | nil => intro acc k hk; simp at hk
  | cons key rest ih =>
    intro acc k hk hx hp
    rw [List.foldl_cons]
    by_cases hrest : k ∈ rest
    · exact ih _ k hrest hx hp
    · have hkey : k = key := by
        rcases List.mem_cons.1 hk with h | h
        · exact h
        · exact absurd h hrest
      have hstay : ∀ (acc1 : JSObject),
          getProp (rest.foldl (copyKey entry) acc1) k = getProp acc1 k := by
        clear ih hk
        induction rest with
        | nil => intro acc1; rfl
        | cons key1 rest1 ih1 =>
          intro acc1
          have hne : ¬ k = key1 := fun h => hrest (by rw [h]; exact List.mem_cons_self _ _)
          have hnr : k ∉ rest1 := fun h => hrest (List.mem_cons_of_mem _ h)
          rw [List.foldl_cons, ih1 hnr, getProp_copyKey]
          rw [if_neg (fun h => hne h.1)]
      rw [hstay, getProp_copyKey, if_pos ⟨hkey, hx, hp⟩]

/-- The own keys of `args`: the keys of the entry that the loop copies. -/
theorem hasOwn_buildArgs (entry : JSObject) (k : String) :
    hasOwn (buildArgs entry) k = true ↔
      hasOwn entry k = true ∧ ¬ (k = "entryType" ∨ k = "name" ∨ k = "toJSON") ∧
        k ≠ "__proto__" := by
  unfold buildArgs
  rw [hasOwn_foldl_copyKey]
  simp [hasOwn, hasOwn_iff_mem_keys]

/-- The value `args` holds for a copied key. -/
theorem getProp_buildArgs (entry : JSObject) (k : String)
    (hk : hasOwn entry k = true) (hx : ¬ (k = "entryType" ∨ k = "name" ∨ k = "toJSON"))
    (hp : k ≠ "__proto__") : getProp (buildArgs entry) k = getProp entry k := by
  unfold buildArgs
  exact getProp_foldl_copyKey entry _ [] k ((hasOwn_iff_mem_keys _ _).1 hk) hx hp

/-- The key `__proto__` is never an own key of `args`, even when the entry has it. -/
theorem hasOwn_buildArgs_proto (entry : JSObject) :
    hasOwn (buildArgs entry) "__proto__" = false := by
  rw [Bool.eq_false_iff]
  intro hh
  exact ((hasOwn_buildArgs entry _).1 hh).2.2 rfl

/-- C8: for an entry with `entryType` `'resource'`, the event's `name` is the literal
`'resource'` and its `args` has the key `url`, whose value is the name the entry had
on input. -/
theorem generateTraceEvents_resource (rt : Runtime) (entries : List JSObject)
    (events : List TraceEvent) (entries1 : List JSObject)
    (h : generateTraceEvents rt entries = .ok (events, entries1))
    (i : Nat) (entry : JSObject) (ev : TraceEvent)
    (hi : entries[i]? = some entry) (hev : events[i]? = some ev)
    (hr : getProp entry "entryType" = .string "resource") :
    ev.name = .string "resource" ∧ hasOwn ev.args "url" = true ∧
      getProp ev.args "url" = getProp entry "name" := by
  obtain ⟨entry1, hbody⟩ := generateTraceEvents_event rt entries events entries1 h i entry ev hi hev
  obtain ⟨he1, hname, _, _, _, _, _, _, _, hargs⟩ := traceEventOfEntry_ok rt i entry ev entry1 hbody
  rw [if_pos hr] at he1 hname
  have hown : hasOwn entry1 "url" = true := by rw [he1]; exact hasOwn_setProp_same _ _ _
  have hx : ¬ ("url" = "entryType" ∨ "url" = "name" ∨ "url" = "toJSON") := by decide
  have hp : "url" ≠ "__proto__" := by decide
  refine ⟨hname, ?_, ?_⟩
  · rw [hargs]
    exact (hasOwn_buildArgs entry1 "url").2 ⟨hown, hx, hp⟩
  · rw [hargs, getProp_buildArgs entry1 "url" hown hx hp, he1]
    exact getProp_setProp_same _ _ _

/-- C8 on the sample entries, at the resource entry. -/
theorem generateTraceEvents_resource_witness :
    (generateTraceEvents numericRuntime sampleEntries = .ok (sampleEvents, sampleEntriesAfter) ∧
      sampleEntries[2]? = some sampleResource ∧ sampleEvents[2]? = some sampleResourceEvent ∧
      getProp sampleResource "entryType" = .string "resource") ∧
    sampleResourceEvent.name = .string "resource" ∧
    hasOwn sampleResourceEvent.args "url" = true ∧
    getProp sampleResourceEvent.args "url" = getProp sampleResource "name" :=
  ⟨⟨rfl, rfl, rfl, rfl⟩, generateTraceEvents_resource numericRuntime sampleEntries sampleEvents
    sampleEntriesAfter rfl 2 sampleResource sampleResourceEvent rfl rfl rfl⟩

/-- C9, as the code has it: every own key k of the entry other than `entryType`,
`name`, `toJSON` and `__proto__`, and other than `url` when the entry's `entryType`
is `'resource'`, is an own key of the event's `args` with exactly the value the
input entry had for k. -/
theorem generateTraceEvents_args_roundtrip (rt : Runtime) (entries : List JSObject)
    (events : List TraceEvent) (entries1 : List JSObject)
    (h : generateTraceEvents rt entries = .ok (events, entries1))
    (i : Nat) (entry : JSObject) (ev : TraceEvent) (k : String)
    (hi : entries[i]? = some entry) (hev : events[i]? = some ev)
    (hk : hasOwn entry k = true)
    (hx : k ≠ "entryType" ∧ k ≠ "name" ∧ k ≠ "toJSON")
    (hp : k ≠ "__proto__")
    (hu : ¬ (getProp entry "entryType" = .string "resource" ∧ k = "url")) :
    hasOwn ev.args k = true ∧ getProp ev.args k = getProp entry k := by
  obtain ⟨entry1, hbody⟩ := generateTraceEvents_event rt entries events entries1 h i entry ev hi hev
  obtain ⟨he1, _, _, _, _, _, _, _, _, hargs⟩ := traceEventOfEntry_ok rt i entry ev entry1 hbody
  have hx1 : ¬ (k = "entryType" ∨ k = "name" ∨ k = "toJSON") := by
    rintro (h1 | h1 | h1)
    · exact hx.1 h1
    · exact hx.2.1 h1
    · exact hx.2.2 h1
  have hsame : hasOwn entry1 k = true ∧ getProp entry1 k = getProp entry k := by
    by_cases hr : getProp entry "entryType" = .string "resource"
    · have hne : "url" ≠ k := fun hh => hu ⟨hr, hh.symm⟩
      rw [if_pos hr] at he1
      rw [he1, hasOwn_setProp_other _ _ _ _ hne, getProp_setProp_other _ _ _ _ hne]
      exact ⟨hk, rfl⟩
    · rw [if_neg hr] at he1
      rw [he1]
      exact ⟨hk, rfl⟩
  rw [hargs]
  exact ⟨(hasOwn_buildArgs entry1 k).2 ⟨hsame.1, hx1, hp⟩,
    (getProp_buildArgs entry1 k hsame.1 hx1 hp).trans hsame.2⟩

/-- C9 as amended, on the sample entries, at the key `initiatorType` of the resource entry. -/
theorem generateTraceEvents_args_roundtrip_witness :
    (generateTraceEvents numericRuntime sampleEntries = .ok (sampleEvents, sampleEntriesAfter) ∧
      sampleEntries[2]? = some sampleResource ∧ sampleEvents[2]? = some sampleResourceEvent ∧
      hasOwn sampleResource "initiatorType" = true ∧
      ("initiatorType" ≠ "entryType" ∧ "initiatorType" ≠ "name" ∧ "initiatorType" ≠ "toJSON") ∧
      "initiatorType" ≠ "__proto__" ∧
      ¬ (getProp sampleResource "entryType" = .string "resource" ∧ "initiatorType" = "url")) ∧
    hasOwn sampleResourceEvent.args "initiatorType" = true ∧
    getProp sampleResourceEvent.args "initiatorType" = getProp sampleResource "initiatorType" :=
  ⟨⟨rfl, rfl, rfl, rfl, by decide, by decide, by decide⟩,
    generateTraceEvents_args_roundtrip numericRuntime sampleEntries sampleEvents
      sampleEntriesAfter rfl 2 sampleResource sampleResourceEvent "initiatorType" rfl rfl rfl
      (by decide) (by decide) (by decide)⟩

/-- C9 as stated fails: the resource entry `resourceWithUrl` has the key `url` with
value `'http://old/'`, and the event's `args.url` is the entry's name instead. -/
theorem generateTraceEvents_args_roundtrip_counterexample :
    generateTraceEvents numericRuntime [resourceWithUrl] =
      .ok ([resourceWithUrlEvent], [resourceWithUrlAfter]) ∧
    hasOwn resourceWithUrl "url" = true ∧
    getProp resourceWithUrl "url" = .string "http://old/" ∧
    getProp resourceWithUrlEvent.args "url" = .string "http://a/b.js" ∧
    getProp resourceWithUrlEvent.args "url" ≠ getProp resourceWithUrl "url" :=
  ⟨rfl, rfl, rfl, rfl, by decide⟩

/-- C10: the event's `args` never has any of the keys `entryType`, `name` or
`toJSON`, whatever keys the entry has. -/
theorem generateTraceEvents_args_excluded (rt : Runtime) (entries : List JSObject)
    (events : List TraceEvent) (entries1 : List JSObject)
    (h : generateTraceEvents rt entries = .ok (events, entries1))
    (i : Nat) (entry : JSObject) (ev : TraceEvent)
    (hi : entries[i]? = some entry) (hev : events[i]? = some ev) :
    hasOwn ev.args "entryType" = false ∧ hasOwn ev.args "name" = false ∧
      hasOwn ev.args "toJSON" = false := by
  obtain ⟨entry1, hbody⟩ := generateTraceEvents_event rt entries events entries1 h i entry ev hi hev
  obtain ⟨_, _, _, _, _, _, _, _, _, hargs⟩ := traceEventOfEntry_ok rt i entry ev entry1 hbody
  rw [hargs]
  refine ⟨?_, ?_, ?_⟩ <;>
    (rw [Bool.eq_false_iff]
     intro hh
     exact ((hasOwn_buildArgs entry1 _).1 hh).2.1 (by decide))

/-- C10 on the sample entries, at the mark entry. -/
theorem generateTraceEvents_args_excluded_witness :
    (generateTraceEvents numericRuntime sampleEntries = .ok (sampleEvents, sampleEntriesAfter) ∧
      sampleEntries[0]? = some sampleMark ∧ sampleEvents[0]? = some sampleMarkEvent) ∧
    hasOwn sampleMarkEvent.args "entryType" = false ∧
    hasOwn sampleMarkEvent.args "name" = false ∧
    hasOwn sampleMarkEvent.args "toJSON" = false :=
  ⟨⟨rfl, rfl, rfl⟩, generateTraceEvents_args_excluded numericRuntime sampleEntries sampleEvents
    sampleEntriesAfter rfl 0 sampleMark sampleMarkEvent rfl rfl⟩

/-! ## Multiplication by 1000 -/

theorem ofNat_thousand : JSNum.ofNat 1000 = .fin false 125 3 := by rfl

theorem bitLengthAux_bounds (fuel : Nat) :
    ∀ n : Nat, n ≤ fuel → n ≠ 0 →
      2 ^ (bitLengthAux fuel n - 1) ≤ n ∧ n < 2 ^ bitLengthAux fuel n := by
  induction fuel with
  | zero => intro n h0 h1; omega
  | succ fuel ih =>
    intro n hle hne
    have hstep : bitLengthAux (fuel + 1) n = bitLengthAux fuel (n / 2) + 1 := by
      simp [bitLengthAux, hne]
    rw [hstep]
    by_cases hhalf : n / 2 = 0
    · have h1 : n = 1 := by omega
      have hz : bitLengthAux fuel (n / 2) = 0 := by
        rw [hhalf]; cases fuel <;> simp [bitLengthAux]
      rw [hz, h1]; simp
    · obtain ⟨hlo, hhi⟩ := ih (n / 2) (by omega) hhalf
      have hpos : 1 ≤ bitLengthAux fuel (n / 2) := by
        by_contra hcon
        have : bitLengthAux fuel (n / 2) = 0 := by omega
        rw [this] at hhi
        simp at hhi
        exact hhalf hhi
      have e1 : 2 ^ (bitLengthAux fuel (n / 2) + 1 - 1) =
          2 * 2 ^ (bitLengthAux fuel (n / 2) - 1) := by
        have : bitLengthAux fuel (n / 2) + 1 - 1 = (bitLengthAux fuel (n / 2) - 1) + 1 := by omega
        rw [this, pow_succ]; ring
      have e2 : 2 ^ (bitLengthAux fuel (n / 2) + 1) = 2 * 2 ^ bitLengthAux fuel (n / 2) := by
        rw [pow_succ]; ring
      rw [e1, e2]
      constructor <;> omega

theorem bitLength_le_of_lt (n k : Nat) (h : n < 2 ^ k) : bitLength n ≤ k := by
  by_cases hn : n = 0
  · subst hn
    simp [bitLength, bitLengthAux]
  · obtain ⟨hlo, _⟩ := bitLengthAux_bounds n n (le_refl n) hn
    by_contra hcon
    have hk : k ≤ bitLength n - 1 := by
      unfold bitLength at hcon ⊢; omega
    have := Nat.pow_le_pow_right (by decide : 1 ≤ 2) hk
    unfold bitLength at this
    omega

theorem pow_bitLength_le (n : Nat) (hn : n ≠ 0) : 2 ^ (bitLength n - 1) ≤ n :=
  (bitLengthAux_bounds n n (le_refl n) hn).1

theorem normalizeAux_ne_zero (fuel : Nat) :
    ∀ (m : Nat) (e : Int), m ≠ 0 → (normalizeAux fuel m e).1 ≠ 0 := by
  induction fuel with
  | zero => intro m e hm; simpa [normalizeAux] using hm
  | succ fuel ih =>
    intro m e hm
    unfold normalizeAux
    split_ifs with hc
    · exact ih _ _ (by omega)
    · exact hm

theorem normalizeAux_value (fuel : Nat) :
    ∀ (m : Nat) (e : Int),
      ((normalizeAux fuel m e).1 : ℚ) * (2 : ℚ) ^ (normalizeAux fuel m e).2 =
        (m : ℚ) * (2 : ℚ) ^ e := by
  induction fuel with
  | zero => intro m e; simp [normalizeAux]
  | succ fuel ih =>
    intro m e
    unfold normalizeAux
    split_ifs with hc
    · rw [ih]
      have hm : m = 2 * (m / 2) := by omega
      have h2 : (2 : ℚ) ^ (e + 1) = (2 : ℚ) ^ e * 2 := by
        rw [zpow_add_one₀ (by norm_num : (2 : ℚ) ≠ 0)]
      rw [h2]
      have hq : (m : ℚ) = 2 * ((m / 2 : Nat) : ℚ) := by
        exact_mod_cast hm
      rw [hq]; ring
    · rfl

theorem normalize_toRat (neg : Bool) (m : Nat) (e : Int) :
    (JSNum.normalize neg m e).toRat? =
      some ((if neg then -1 else 1) * (m : ℚ) * (2 : ℚ) ^ e) := by
  unfold JSNum.normalize
  by_cases hm : m = 0
  · subst hm; simp [JSNum.toRat?]
  · rw [if_neg hm]
    show some ((if neg then -1 else 1) * ((normalizeAux m m e).1 : ℚ) *
      (2 : ℚ) ^ (normalizeAux m m e).2) = _
    rw [mul_assoc, normalizeAux_value, mul_assoc]

theorem normalize_isZero (neg : Bool) (m : Nat) (e : Int) (hm : m ≠ 0) :
    (JSNum.normalize neg m e).isZero = false := by
  unfold JSNum.normalize
  simp only [hm, if_false, JSNum.isZero]
  simpa using normalizeAux_ne_zero m m e hm

/-- The product with 1000 is exact when it needs at most 53 significant bits and
is in the range of the doubles. -/
theorem mul_thousand_exact (neg : Bool) (m : Nat) (e : Int)
    (hm : m * 125 < 2 ^ 53) (he1 : -1077 ≤ e) (he2 : e ≤ 968) :
    ((JSNum.fin neg m e).mul (JSNum.ofNat 1000)).toRat? =
      some ((if neg then -1 else 1) * (m : ℚ) * (2 : ℚ) ^ e * 1000) := by
  rw [ofNat_thousand]
  simp only [JSNum.mul, Bool.xor_false]
  unfold JSNum.round
  by_cases hz : m * 125 = 0
  · have hm0 : m = 0 := by omega
    subst hm0
    simp [JSNum.toRat?]
  · have hbl : bitLength (m * 125) ≤ 53 := bitLength_le_of_lt _ _ hm
    have hshift : (max ((bitLength (m * 125) : Int) - 53) (-1074 - (e + 3))).toNat = 0 := by
      apply Int.toNat_eq_zero.2
      apply max_le <;> omega
    simp only [hz, if_false, hshift, pow_zero, Nat.div_one, Nat.mod_one, Nat.cast_zero,
      add_zero]
    have hq : ¬ ((1 : Nat) < 2 * 0 ∨ 2 * 0 = 1 ∧ m * 125 % 2 = 1) := by omega
    simp only [hq, if_false, hz]
    have hov : ¬ (1024 < (bitLength (m * 125) : Int) + (e + 3)) := by omega
    simp only [hov, if_false]
    rw [normalize_toRat]
    congr 1
    have h3 : (2 : ℚ) ^ (e + 3) = (2 : ℚ) ^ e * 8 := by
      rw [zpow_add₀ (by norm_num : (2 : ℚ) ≠ 0)]; norm_num
    rw [h3]
    push_cast
    ring

/-- On a double, the product with 1000 is zero exactly when the factor is zero:
the product cannot underflow. -/
theorem mul_thousand_isZero (d : JSNum) (hd : d.isDouble = true) :
    (d.mul (JSNum.ofNat 1000)).isZero = d.isZero := by
  rw [ofNat_thousand]
  cases d with
  | nan => rfl
  | inf s => simp [JSNum.mul, JSNum.isZero]
  | fin neg m e =>
    simp only [JSNum.isDouble, decide_eq_true_eq] at hd
    obtain ⟨_, he, _⟩ := hd
    simp only [JSNum.mul, Bool.xor_false]
    by_cases hm : m = 0
    · subst hm
      simp [JSNum.round, JSNum.isZero]
    · have hM : m * 125 ≠ 0 := by omega
      have hz : (JSNum.fin neg m e).isZero = false := by simp [JSNum.isZero, hm]
      rw [hz]
      unfold JSNum.round
      simp only [hM, if_false]
      have hq : m * 125 /
          2 ^ (max ((bitLength (m * 125) : Int) - 53) (-1074 - (e + 3))).toNat ≠ 0 := by
        have hpow := pow_bitLength_le (m * 125) hM
        have hle : (max ((bitLength (m * 125) : Int) - 53) (-1074 - (e + 3))).toNat
            ≤ bitLength (m * 125) - 1 := by
          have h1 : (max ((bitLength (m * 125) : Int) - 53) (-1074 - (e + 3)))
              ≤ ((bitLength (m * 125) - 1 : Nat) : Int) := by
            apply max_le <;> omega
          omega
        have h2 := Nat.pow_le_pow_right (by decide : 1 ≤ 2) hle
        have hpos : 0 < 2 ^ (max ((bitLength (m * 125) : Int) - 53) (-1074 - (e + 3))).toNat :=
          Nat.pow_pos (by decide)
        exact Nat.ne_of_gt (Nat.div_pos (le_trans h2 hpow) hpos)
      split_ifs
      all_goals first
        | rfl
        | contradiction
        | exact normalize_isZero _ _ _ hq
        | exact normalize_isZero _ _ _ (Nat.succ_ne_zero _)

theorem times1000_number (rt : Runtime) (x y : JSNum)
    (h : times1000 rt (.number x) = .ok y) : y = x.mul (JSNum.ofNat 1000) := by
  simp only [times1000, toNumber, Except.ok.injEq] at h
  exact h.symm

/-- C11, as the code has it: for an entry whose `startTime` and `duration` are
Numbers, `ts` and `dur` are the double-precision products with 1000 (the exact
product rounded to a double); each equals the exact product whenever that needs at
most 53 significant bits and is in range, which covers every integer below
`2^53 / 1000` in magnitude; and `dur` is zero if and only if `ph = 'n'`. -/
theorem generateTraceEvents_ts_dur (rt : Runtime) (entries : List JSObject)
    (events : List TraceEvent) (entries1 : List JSObject)
    (h : generateTraceEvents rt entries = .ok (events, entries1))
    (i : Nat) (entry : JSObject) (ev : TraceEvent) (x d : JSNum)
    (hi : entries[i]? = some entry) (hev : events[i]? = some ev)
    (hs : getProp entry "startTime" = .number x)
    (hd : getProp entry "duration" = .number d)
    (hdv : d.isDouble = true) :
    ev.ts = x.mul (JSNum.ofNat 1000) ∧ ev.dur = d.mul (JSNum.ofNat 1000) ∧
    (∀ (neg : Bool) (m : Nat) (e : Int), x = .fin neg m e →
      m * 125 < 2 ^ 53 → -1077 ≤ e → e ≤ 968 →
      ev.ts.toRat? = x.toRat?.map (fun q => q * 1000)) ∧
    (∀ (neg : Bool) (m : Nat) (e : Int), d = .fin neg m e →
      m * 125 < 2 ^ 53 → -1077 ≤ e → e ≤ 968 →
      ev.dur.toRat? = d.toRat?.map (fun q => q * 1000)) ∧
    (ev.dur.isZero = true ↔ ev.ph = "n") := by
  obtain ⟨entry1, hbody⟩ := generateTraceEvents_event rt entries events entries1 h i entry ev hi hev
  obtain ⟨_, _, _, hts, hdur, _, hph, _⟩ := traceEventOfEntry_ok rt i entry ev entry1 hbody
  rw [hs] at hts
  rw [hd] at hdur hph
  have e1 := times1000_number rt x ev.ts hts
  have e2 := times1000_number rt d ev.dur hdur
  refine ⟨e1, e2, ?_, ?_, ?_⟩
  · intro neg m e hx hm he1 he2
    rw [e1, hx, mul_thousand_exact neg m e hm he1 he2]
    simp [JSNum.toRat?]
  · intro neg m e hx hm he1 he2
    rw [e2, hx, mul_thousand_exact neg m e hm he1 he2]
    simp [JSNum.toRat?]
  · rw [e2, mul_thousand_isZero d hdv, hph]
    simp only [strictEqualsZero]
    by_cases hz : d.isZero = true
    · simp [hz]
    · simp only [hz, if_false, false_iff]
      decide

/-- C11 as amended, on the sample entries, at the mark entry: `startTime` 5 gives
`ts` 5000 exactly and `duration` 0 gives `dur` 0. -/
theorem generateTraceEvents_ts_dur_witness :
    (generateTraceEvents numericRuntime sampleEntries = .ok (sampleEvents, sampleEntriesAfter) ∧
      sampleEntries[0]? = some sampleMark ∧ sampleEvents[0]? = some sampleMarkEvent ∧
      getProp sampleMark "startTime" = .number (.fin false 5 0) ∧
      getProp sampleMark "duration" = .number (.fin false 0 0) ∧
      (JSNum.fin false 0 0).isDouble = true) ∧
    sampleMarkEvent.ts.toRat? = (JSNum.fin false 5 0).toRat?.map (fun q => q * 1000) ∧
    (sampleMarkEvent.dur.isZero = true ↔ sampleMarkEvent.ph = "n") :=
  ⟨⟨rfl, rfl, rfl, rfl, rfl, by decide⟩,
    (generateTraceEvents_ts_dur numericRuntime sampleEntries sampleEvents sampleEntriesAfter
      rfl 0 sampleMark sampleMarkEvent (.fin false 5 0) (.fin false 0 0) rfl rfl rfl rfl
      (by decide)).2.2.1 false 5 0 rfl (by decide) (by decide) (by decide),
    (generateTraceEvents_ts_dur numericRuntime sampleEntries sampleEvents sampleEntriesAfter
      rfl 0 sampleMark sampleMarkEvent (.fin false 5 0) (.fin false 0 0) rfl rfl rfl rfl
      (by decide)).2.2.2.2⟩

/-- C11 as stated fails: for `startTime` 1.005 (the double `1131529406376837·2^-50`)
the event's `ts` is `8840073487319039·2^-43`, printed `1004.9999999999999`, which is
neither the exact product of that double with 1000 nor 1005. -/
theorem generateTraceEvents_ts_dur_counterexample :
    generateTraceEvents numericRuntime [fractionalMark] =
      .ok ([fractionalMarkEvent], [fractionalMark]) ∧
    getProp fractionalMark "startTime" = .number (.fin false 1131529406376837 (-50)) ∧
    fractionalMarkEvent.ts.toRat? ≠
      (JSNum.fin false 1131529406376837 (-50)).toRat?.map (fun q => q * 1000) ∧
    fractionalMarkEvent.ts.toRat? ≠ some 1005 := by
  refine ⟨rfl, rfl, ?_, ?_⟩
  · simp only [fractionalMarkEvent, JSNum.toRat?, Option.map_some', ne_eq, Option.some.injEq]
    norm_num
  · simp only [fractionalMarkEvent, JSNum.toRat?, ne_eq, Option.some.injEq]
    norm_num

/-! ## The loop as a whole -/

theorem forOfLoop_eq_loopResult (rt : Runtime) :
    ∀ (es : List JSObject) (tr : List TraceEvent) (id : Nat) (vis : List JSObject),
      forOfLoop rt es tr id vis =
        match loopResult rt id es with
        | .error err => .error err
        | .ok (evs, es1) => .ok (tr ++ evs, vis ++ es1) := by
  intro es
  induction es with
  | nil => intro tr id vis; simp [forOfLoop, loopResult]
  | cons e rest ih =>
    intro tr id vis
    rw [forOfLoop, loopResult]
    cases hb : traceEventOfEntry rt id e with
    | error err => rfl
    | ok p =>
      obtain ⟨ev, e1⟩ := p
      simp only [ih]
      cases hr : loopResult rt (id + 1) rest with
      | error err => rfl
      | ok q =>
        obtain ⟨evs, es1⟩ := q
        simp

theorem generateTraceEvents_eq_loopResult (rt : Runtime) (entries : List JSObject) :
    generateTraceEvents rt entries = loopResult rt 0 entries := by
  unfold generateTraceEvents
  rw [forOfLoop_eq_loopResult]
  cases loopResult rt 0 entries with
  | error err => rfl
  | ok q => obtain ⟨evs, es1⟩ := q; simp

/-- The loop body at another counter value: the same event but for its id. -/
theorem traceEventOfEntry_id (rt : Runtime) (id id2 : Nat) (entry : JSObject)
    (ev : TraceEvent) (entry1 : JSObject)
    (h : traceEventOfEntry rt id entry = .ok (ev, entry1)) :
    traceEventOfEntry rt id2 entry =
      .ok ({ ev with id := "0x" ++ toString16 id2 }, entry1) := by
  unfold traceEventOfEntry at h ⊢
  cases hts : times1000 rt (getProp entry "startTime") with
  | error err => simp [hts] at h
  | ok ts =>
    cases hdur : times1000 rt (getProp entry "duration") with
    | error err => simp [hts, hdur] at h
    | ok dur =>
      cases hc : classify entry with
      | error err => simp [hts, hdur, hc] at h
      | ok p =>
        obtain ⟨pid, tid⟩ := p
        simp only [hts, hdur, hc, Except.ok.injEq, Prod.mk.injEq] at h ⊢
        obtain ⟨hev, he1⟩ := h
        subst hev
        exact ⟨rfl, he1⟩

theorem setProp_setProp_same (o : JSObject) (key : String) (v : JSValue) :
    setProp (setProp o key v) key v = setProp o key v := by
  induction o with
  | nil => simp [setProp]
  | cons p rest ih =>
    obtain ⟨k, w⟩ := p
    by_cases hk : k = key
    · simp [setProp, hk]
    · simp [setProp, hk, ih]

theorem classify_congr (entry entry1 : JSObject)
    (h1 : getProp entry1 "entryType" = getProp entry "entryType")
    (h2 : getProp entry1 "name" = getProp entry "name") :
    classify entry1 = classify entry := by
  unfold classify
  rw [h1, h2]

/-- The loop body on the entry it left behind: the same event, the same entry. -/
theorem traceEventOfEntry_again (rt : Runtime) (id : Nat) (entry : JSObject)
    (ev : TraceEvent) (entry1 : JSObject)
    (h : traceEventOfEntry rt id entry = .ok (ev, entry1)) :
    traceEventOfEntry rt id entry1 = .ok (ev, entry1) := by
  obtain ⟨he1, _⟩ := traceEventOfEntry_ok rt id entry ev entry1 h
  by_cases hr : getProp entry "entryType" = .string "resource"
  · rw [if_pos hr] at he1
    have g : ∀ k : String, "url" ≠ k → getProp entry1 k = getProp entry k := by
      intro k hk; rw [he1]; exact getProp_setProp_other _ _ _ _ hk
    have gt := g "entryType" (by decide)
    have gn := g "name" (by decide)
    have gs := g "startTime" (by decide)
    have gd := g "duration" (by decide)
    have hr1 : strictEqualsString (getProp entry "entryType") "resource" = true :=
      (strictEqualsString_iff _ _).2 hr
    have hset : setProp entry1 "url" (getProp entry "name") = entry1 := by
      rw [he1]; exact setProp_setProp_same _ _ _
    have hgoal : traceEventOfEntry rt id entry1 = traceEventOfEntry rt id entry := by
      unfold traceEventOfEntry
      rw [gt, gn, gs, gd, classify_congr entry entry1 gt gn]
      simp only [hr1, if_true, hset]
      rw [← he1]
    rw [hgoal]
    exact h
  · rw [if_neg hr] at he1
    subst he1
    exact h

theorem loopResult_append (rt : Runtime) :
    ∀ (xs ys : List JSObject) (id : Nat),
      loopResult rt id (xs ++ ys) =
        match loopResult rt id xs with
        | .error err => .error err
        | .ok (evx, xs1) =>
          match loopResult rt (id + xs.length) ys with
          | .error err => .error err
          | .ok (evy, ys1) => .ok (evx ++ evy, xs1 ++ ys1) := by
  intro xs
  induction xs with
  | nil =>
    intro ys id
    simp only [List.nil_append, loopResult, List.length_nil, Nat.add_zero]
    cases loopResult rt id ys with
    | error err => rfl
    | ok q => obtain ⟨evy, ys1⟩ := q; rfl
  | cons x rest ih =>
    intro ys id
    have hl : loopResult rt id (x :: rest ++ ys) =
        (match traceEventOfEntry rt id x with
        | .error err => .error err
        | .ok (ev, x1) =>
          match loopResult rt (id + 1) (rest ++ ys) with
          | .error err => .error err
          | .ok (evs, rest1) => .ok (ev :: evs, x1 :: rest1)) := rfl
    have hx : loopResult rt id (x :: rest) =
        (match traceEventOfEntry rt id x with
        | .error err => .error err
        | .ok (ev, x1) =>
          match loopResult rt (id + 1) rest with
          | .error err => .error err
          | .ok (evs, rest1) => .ok (ev :: evs, x1 :: rest1)) := rfl
    have hid : id + (x :: rest).length = id + 1 + rest.length := by
      simp only [List.length_cons]; omega
    rw [hl, hx, ih, hid]
    cases hb : traceEventOfEntry rt id x with
    | error err => rfl
    | ok p =>
      obtain ⟨ev, x1⟩ := p
      cases hr : loopResult rt (id + 1) rest with
      | error err => rfl
      | ok q =>
        obtain ⟨evs, rest1⟩ := q
        cases loopResult rt (id + 1 + rest.length) ys with
        | error err => rfl
        | ok q2 => obtain ⟨evy, ys1⟩ := q2; rfl

theorem loopResult_shift (rt : Runtime) :
    ∀ (es : List JSObject) (id id2 : Nat) (evs : List TraceEvent) (es1 : List JSObject),
      loopResult rt id es = .ok (evs, es1) →
      loopResult rt id2 es = .ok (withIdsFrom id2 evs, es1) := by
  intro es
  induction es with
  | nil =>
    intro id id2 evs es1 h
    simp only [loopResult, Except.ok.injEq, Prod.mk.injEq] at h
    obtain ⟨rfl, rfl⟩ := h
    rfl
  | cons e rest ih =>
    intro id id2 evs es1 h
    rw [loopResult] at h ⊢
    cases hb : traceEventOfEntry rt id e with
    | error err => simp [hb] at h
    | ok p =>
      obtain ⟨ev, e1⟩ := p
      cases hr : loopResult rt (id + 1) rest with
      | error err => simp [hb, hr] at h
      | ok q =>
        obtain ⟨evs2, rest1⟩ := q
        simp only [hb, hr, Except.ok.injEq, Prod.mk.injEq] at h
        obtain ⟨rfl, rfl⟩ := h
        rw [traceEventOfEntry_id rt id id2 e ev e1 hb, ih (id + 1) (id2 + 1) evs2 rest1 hr]
        rfl

theorem loopResult_again (rt : Runtime) :
    ∀ (es : List JSObject) (id : Nat) (evs : List TraceEvent) (es1 : List JSObject),
      loopResult rt id es = .ok (evs, es1) → loopResult rt id es1 = .ok (evs, es1) := by
  intro es
  induction es with
  | nil =>
    intro id evs es1 h
    simp only [loopResult, Except.ok.injEq, Prod.mk.injEq] at h
    obtain ⟨rfl, rfl⟩ := h
    rfl
  | cons e rest ih =>
    intro id evs es1 h
    rw [loopResult] at h
    cases hb : traceEventOfEntry rt id e with
    | error err => simp [hb] at h
    | ok p =>
      obtain ⟨ev, e1⟩ := p
      cases hr : loopResult rt (id + 1) rest with
      | error err => simp [hb, hr] at h
      | ok q =>
        obtain ⟨evs2, rest1⟩ := q
        simp only [hb, hr, Except.ok.injEq, Prod.mk.injEq] at h
        obtain ⟨rfl, rfl⟩ := h
        rw [loopResult, traceEventOfEntry_again rt id e ev e1 hb, ih (id + 1) evs2 rest1 hr]

theorem withIdsFrom_getElem? :
    ∀ (evs : List TraceEvent) (start j : Nat) (ev : TraceEvent),
      evs[j]? = some ev →
      (withIdsFrom start evs)[j]? = some { ev with id := "0x" ++ toString16 (start + j) } := by
  intro evs
  induction evs with
  | nil => intro start j ev h; simp at h
  | cons e rest ih =>
    intro start j ev h
    cases j with
    | zero =>
      simp only [List.getElem?_cons_zero, Option.some.injEq] at h
      subst h
      simp [withIdsFrom]
    | succ k =>
      simp only [List.getElem?_cons_succ] at h
      have := ih (start + 1) k ev h
      simp only [withIdsFrom, List.getElem?_cons_succ]
      rw [this]
      have e1 : start + 1 + k = start + (k + 1) := by omega
      rw [e1]

theorem withIdsFrom_length : ∀ (evs : List TraceEvent) (start : Nat),
    (withIdsFrom start evs).length = evs.length := by
  intro evs
  induction evs with
  | nil => intro start; rfl
  | cons e rest ih => intro start; simp [withIdsFrom, ih]

/-! ## Claims about examples, effects and composition -/

/-- C12, as the code has it: on the one-element list
`[{name:'mark-a', entryType:'mark', startTime:5, duration:0}]` the function returns
exactly `[{name:'mark-a', cat:'mark', ts:5000, dur:0, pid:'Marks', ph:'n', s:'t',
id:'0x0', args:{startTime:5, duration:0}}]`, with no `tid` field, and leaves the
entry as it was. -/
theorem generateTraceEvents_mark_example (rt : Runtime) :
    generateTraceEvents rt
      [[("name", .string "mark-a"), ("entryType", .string "mark"),
        ("startTime", .number (JSNum.ofNat 5)), ("duration", .number (JSNum.ofNat 0))]] =
    .ok ([{ name := .string "mark-a", cat := .string "mark", ts := JSNum.ofNat 5000,
            dur := JSNum.ofNat 0, pid := "Marks", tid := none, ph := "n", s := some "t",
            id := "0x0",
            args := [("startTime", .number (JSNum.ofNat 5)),
                     ("duration", .number (JSNum.ofNat 0))] }],
         [[("name", .string "mark-a"), ("entryType", .string "mark"),
           ("startTime", .number (JSNum.ofNat 5)), ("duration", .number (JSNum.ofNat 0))]]) := by
  rfl

/-- C12 as stated fails: the event's `args` is `{startTime: 5, duration: 0}`, not the
empty mapping. -/
theorem generateTraceEvents_mark_example_counterexample :
    generateTraceEvents numericRuntime [sampleMark] = .ok ([sampleMarkEvent], [sampleMark]) ∧
    sampleMarkEvent.args =
      [("startTime", .number (JSNum.ofNat 5)), ("duration", .number (JSNum.ofNat 0))] ∧
    sampleMarkEvent.args ≠ [] :=
  ⟨rfl, rfl, by decide⟩

/-- The entries after a returning call, index by index. -/
theorem generateTraceEvents_entry_after (rt : Runtime) (entries : List JSObject)
    (events : List TraceEvent) (entries1 : List JSObject)
    (h : generateTraceEvents rt entries = .ok (events, entries1))
    (i : Nat) (entry : JSObject) (hi : entries[i]? = some entry) :
    entries1[i]? = some (if getProp entry "entryType" = .string "resource"
      then setProp entry "url" (getProp entry "name") else entry) := by
  obtain ⟨hlen, _, hall⟩ := generateTraceEvents_ok rt entries events entries1 h
  have hlt : i < events.length := by
    rw [hlen]
    exact (List.getElem?_eq_some_iff.1 hi).1
  obtain ⟨entry1, h1, hbody⟩ := hall i entry events[i] hi (List.getElem?_eq_getElem hlt)
  rw [h1, (traceEventOfEntry_ok rt i entry _ _ hbody).1]

/-- C13, as the code has it: a returning call leaves every entry whose `entryType`
is not `'resource'` with exactly the keys and values it had, and the list keeps its
length. -/
theorem generateTraceEvents_unchanged_nonresource (rt : Runtime) (entries : List JSObject)
    (events : List TraceEvent) (entries1 : List JSObject)
    (h : generateTraceEvents rt entries = .ok (events, entries1))
    (i : Nat) (entry : JSObject) (hi : entries[i]? = some entry)
    (hne : getProp entry "entryType" ≠ .string "resource") :
    entries1.length = entries.length ∧ entries1[i]? = some entry := by
  refine ⟨(generateTraceEvents_ok rt entries events entries1 h).2.1, ?_⟩
  rw [generateTraceEvents_entry_after rt entries events entries1 h i entry hi, if_neg hne]

/-- C13 as amended, on the sample entries, at the measure entry. -/
theorem generateTraceEvents_unchanged_nonresource_witness :
    (generateTraceEvents numericRuntime sampleEntries = .ok (sampleEvents, sampleEntriesAfter) ∧
      sampleEntries[1]? = some sampleMeasure ∧
      getProp sampleMeasure "entryType" ≠ .string "resource") ∧
    sampleEntriesAfter.length = sampleEntries.length ∧
    sampleEntriesAfter[1]? = some sampleMeasure :=
  ⟨⟨rfl, rfl, by decide⟩, generateTraceEvents_unchanged_nonresource numericRuntime
    sampleEntries sampleEvents sampleEntriesAfter rfl 1 sampleMeasure rfl (by decide)⟩

/-- C13 as stated fails: the call on `[sampleResource]` leaves the entry with a key
`url` that it did not have. -/
theorem generateTraceEvents_unchanged_counterexample :
    generateTraceEvents numericRuntime [sampleResource] =
      .ok ([loneResourceEvent], [sampleResourceAfter]) ∧
    hasOwn sampleResource "url" = false ∧
    hasOwn sampleResourceAfter "url" = true ∧
    sampleResourceAfter ≠ sampleResource :=
  ⟨rfl, rfl, rfl, by decide⟩

/-- C15: after a returning call, a second call on the entries as the first call left
them returns the same events and leaves the entries as they are; the ids start at
`'0x0'` again. -/
theorem generateTraceEvents_repeat (rt : Runtime) (entries : List JSObject)
    (events : List TraceEvent) (entries1 : List JSObject)
    (h : generateTraceEvents rt entries = .ok (events, entries1)) :
    generateTraceEvents rt entries1 = .ok (events, entries1) ∧
    (∀ ev : TraceEvent, events[0]? = some ev → ev.id = "0x0") := by
  constructor
  · rw [generateTraceEvents_eq_loopResult] at h ⊢
    exact loopResult_again rt entries 0 events entries1 h
  · intro ev hev
    obtain ⟨hlen, _, hall⟩ := generateTraceEvents_ok rt entries events entries1 h
    have hlt : 0 < entries.length := by
      rw [← hlen]
      exact (List.getElem?_eq_some_iff.1 hev).1
    obtain ⟨entry1, _, hbody⟩ := hall 0 entries[0] ev (List.getElem?_eq_getElem hlt) hev
    exact (traceEventOfEntry_ok rt 0 _ _ _ hbody).2.2.2.2.2.2.2.2.1

/-- C15 on the sample entries: the second call, on the entries with `url` added,
returns the sample events again. -/
theorem generateTraceEvents_repeat_witness :
    generateTraceEvents numericRuntime sampleEntries = .ok (sampleEvents, sampleEntriesAfter) ∧
    generateTraceEvents numericRuntime sampleEntriesAfter =
      .ok (sampleEvents, sampleEntriesAfter) ∧
    (∀ ev : TraceEvent, sampleEvents[0]? = some ev → ev.id = "0x0") :=
  ⟨rfl, generateTraceEvents_repeat numericRuntime sampleEntries sampleEvents
    sampleEntriesAfter rfl⟩

/-- C20: when the function returns on `xs` and on `ys`, it returns on `xs ++ ys` the
events for `xs` followed by the events for `ys` with the id of the j-th replaced by
`'0x' + hex(length xs + j)`, every other field unchanged, and leaves the entries as
the two calls leave them. -/
theorem generateTraceEvents_append (rt : Runtime) (xs ys : List JSObject)
    (evx evy : List TraceEvent) (xs1 ys1 : List JSObject)
    (hx : generateTraceEvents rt xs = .ok (evx, xs1))
    (hy : generateTraceEvents rt ys = .ok (evy, ys1)) :
    generateTraceEvents rt (xs ++ ys) = .ok (evx ++ withIdsFrom xs.length evy, xs1 ++ ys1) ∧
    (∀ (j : Nat) (ev : TraceEvent), evy[j]? = some ev →
      (evx ++ withIdsFrom xs.length evy)[xs.length + j]? =
        some { ev with id := "0x" ++ toString16 (xs.length + j) }) := by
  rw [generateTraceEvents_eq_loopResult] at hx hy ⊢
  have hlen : evx.length = xs.length := by
    have := (generateTraceEvents_ok rt xs evx xs1
      (by rw [generateTraceEvents_eq_loopResult]; exact hx)).1
    exact this
  constructor
  · rw [loopResult_append, hx]
    simp only [Nat.zero_add]
    rw [loopResult_shift rt ys 0 xs.length evy ys1 hy]
  · intro j ev hev
    rw [List.getElem?_append_right (by omega)]
    have hsub : xs.length + j - evx.length = j := by omega
    rw [hsub]
    exact withIdsFrom_getElem? evy xs.length j ev hev

/-- C20 on the sample entries, split after the first entry. -/
theorem generateTraceEvents_append_witness :
    (generateTraceEvents numericRuntime [sampleMark] = .ok ([sampleMarkEvent], [sampleMark]) ∧
      generateTraceEvents numericRuntime [sampleMeasure, sampleResource] =
        .ok ([{ sampleMeasureEvent with id := "0x0" }, { sampleResourceEvent with id := "0x1" }],
          [sampleMeasure, sampleResourceAfter])) ∧
    generateTraceEvents numericRuntime ([sampleMark] ++ [sampleMeasure, sampleResource]) =
      .ok ([sampleMarkEvent] ++ withIdsFrom [sampleMark].length
          [{ sampleMeasureEvent with id := "0x0" }, { sampleResourceEvent with id := "0x1" }],
        [sampleMark] ++ [sampleMeasure, sampleResourceAfter]) :=
  ⟨⟨rfl, rfl⟩, (generateTraceEvents_append numericRuntime [sampleMark]
    [sampleMeasure, sampleResource] [sampleMarkEvent]
    [{ sampleMeasureEvent with id := "0x0" }, { sampleResourceEvent with id := "0x1" }]
    [sampleMark] [sampleMeasure, sampleResourceAfter] rfl rfl).1⟩

theorem setProp_of_not_hasOwn (o : JSObject) (key : String) (v : JSValue)
    (h : hasOwn o key = false) : setProp o key v = o ++ [(key, v)] := by
  induction o with
  | nil => rfl
  | cons p rest ih =>
    obtain ⟨k, w⟩ := p
    by_cases hk : k = key
    · simp [hasOwn, hk] at h
    · simp only [hasOwn, hk, if_false] at h
      simp [setProp, hk, ih h]

theorem objectKeys_setProp_of_hasOwn (o : JSObject) (key : String) (v : JSValue)
    (h : hasOwn o key = true) : objectKeys (setProp o key v) = objectKeys o := by
  induction o with
  | nil => simp [hasOwn] at h
  | cons p rest ih =>
    obtain ⟨k, w⟩ := p
    by_cases hk : k = key
    · simp [setProp, objectKeys, hk]
    · simp only [hasOwn, hk, if_false] at h
      have := ih h
      simp only [objectKeys] at this
      simp [setProp, objectKeys, hk, this]

theorem map_replace_of_not_hasOwn (o : JSObject) (key : String) (v : JSValue)
    (h : hasOwn o key = false) :
    o.map (fun p => if p.1 = key then (p.1, v) else p) = o := by
  induction o with
  | nil => rfl
  | cons p rest ih =>
    obtain ⟨k, w⟩ := p
    by_cases hk : k = key
    · simp [hasOwn, hk] at h
    · simp only [hasOwn, hk, if_false] at h
      simp [hk, ih h]

theorem setProp_eq_map (o : JSObject) (key : String) (v : JSValue)
    (h : hasOwn o key = true) (hnd : (objectKeys o).Nodup) :
    setProp o key v = o.map (fun p => if p.1 = key then (p.1, v) else p) := by
  induction o with
  | nil => simp [hasOwn] at h
  | cons p rest ih =>
    obtain ⟨k, w⟩ := p
    simp only [objectKeys, List.map_cons, List.nodup_cons] at hnd
    by_cases hk : k = key
    · subst hk
      have hrest : hasOwn rest k = false := by
        rw [Bool.eq_false_iff]
        intro hh
        exact hnd.1 ((hasOwn_iff_mem_keys rest k).1 hh)
      simp [setProp, map_replace_of_not_hasOwn rest k v hrest]
    · simp only [hasOwn, hk, if_false] at h
      have := ih h hnd.2
      simp [setProp, hk, this]

/-- C18: after a returning call, an entry whose `entryType` is not `'resource'` is
unchanged, and an entry whose `entryType` is `'resource'` differs from its original
only in the key `url`, which holds the entry's own name: added as the last key if
absent, overwritten in place if present; the name and every other key and value are
as before. -/
theorem generateTraceEvents_effect_on_entries (rt : Runtime) (entries : List JSObject)
    (events : List TraceEvent) (entries1 : List JSObject)
    (h : generateTraceEvents rt entries = .ok (events, entries1))
    (i : Nat) (entry : JSObject) (hi : entries[i]? = some entry) :
    ∃ entry1 : JSObject, entries1[i]? = some entry1 ∧
      (getProp entry "entryType" ≠ .string "resource" → entry1 = entry) ∧
      (getProp entry "entryType" = .string "resource" →
        getProp entry1 "url" = getProp entry "name" ∧
        (hasOwn entry "url" = false → entry1 = entry ++ [("url", getProp entry "name")]) ∧
        (hasOwn entry "url" = true → objectKeys entry1 = objectKeys entry) ∧
        (hasOwn entry "url" = true → (objectKeys entry).Nodup →
          entry1 = entry.map (fun p => if p.1 = "url" then (p.1, getProp entry "name") else p)) ∧
        getProp entry1 "name" = getProp entry "name" ∧
        (∀ k : String, k ≠ "url" →
          hasOwn entry1 k = hasOwn entry k ∧ getProp entry1 k = getProp entry k)) := by
  refine ⟨_, generateTraceEvents_entry_after rt entries events entries1 h i entry hi, ?_, ?_⟩
  · intro hne
    rw [if_neg hne]
  · intro hr
    rw [if_pos hr]
    refine ⟨getProp_setProp_same _ _ _, ?_, ?_, ?_, ?_, ?_⟩
    · intro hno
      exact setProp_of_not_hasOwn _ _ _ hno
    · intro hyes
      exact objectKeys_setProp_of_hasOwn _ _ _ hyes
    · intro hyes hnd
      exact setProp_eq_map _ _ _ hyes hnd
    · exact getProp_setProp_other _ _ _ _ (by decide)
    · intro k hk
      exact ⟨hasOwn_setProp_other _ _ _ _ (Ne.symm hk), getProp_setProp_other _ _ _ _ (Ne.symm hk)⟩

/-- C18 on the sample entries, at the resource entry, which has no `url` on input. -/
theorem generateTraceEvents_effect_on_entries_witness :
    (generateTraceEvents numericRuntime sampleEntries = .ok (sampleEvents, sampleEntriesAfter) ∧
      sampleEntries[2]? = some sampleResource) ∧
    ∃ entry1 : JSObject, sampleEntriesAfter[2]? = some entry1 ∧
      (getProp sampleResource "entryType" = .string "resource" →
        getProp entry1 "url" = getProp sampleResource "name" ∧
        (hasOwn sampleResource "url" = false →
          entry1 = sampleResource ++ [("url", getProp sampleResource "name")])) := by
  refine ⟨⟨rfl, rfl⟩, ?_⟩
  obtain ⟨entry1, h1, _, h3⟩ := generateTraceEvents_effect_on_entries numericRuntime
    sampleEntries sampleEvents sampleEntriesAfter rfl 2 sampleResource rfl
  exact ⟨entry1, h1, fun hr => ⟨(h3 hr).1, (h3 hr).2.1⟩⟩

theorem toNumber_primitive (rt : Runtime) (v : JSValue) (hv : isPrimitive v = true) :
    ∃ x, toNumber rt v = .ok x := by
  cases v with
  | array items => simp [isPrimitive] at hv
  | object props => simp [isPrimitive] at hv
  | undefined => exact ⟨_, rfl⟩
  | null => exact ⟨_, rfl⟩
  | bool b => exact ⟨_, rfl⟩
  | number x => exact ⟨_, rfl⟩
  | string s => exact ⟨_, rfl⟩

theorem times1000_undefined (rt : Runtime) (y : JSNum)
    (h : times1000 rt .undefined = .ok y) : y = .nan := by
  simp only [times1000, toNumber, Except.ok.injEq] at h
  rw [← h]
  simp [JSNum.mul]

/-- C14, as the code has it: the function returns, with one event per entry, on
every list of records in which `startTime` and `duration` are each missing or a
primitive and every entry whose `entryType` is `'measure'` has a string `name`; a
missing `startTime` or `duration` gives `NaN` in `ts` or `dur`, a missing `entryType`
gives `undefined` in `cat`, and a missing `name` gives `undefined` in `name`. -/
theorem generateTraceEvents_returns_on_primitives (rt : Runtime) (entries : List JSObject)
    (hall : ∀ entry ∈ entries,
      isPrimitive (getProp entry "startTime") = true ∧
      isPrimitive (getProp entry "duration") = true ∧
      (getProp entry "entryType" = .string "measure" →
        ∃ name : String, getProp entry "name" = .string name)) :
    ∃ (events : List TraceEvent) (entries1 : List JSObject),
      generateTraceEvents rt entries = .ok (events, entries1) ∧
      events.length = entries.length ∧
      ∀ (i : Nat) (entry : JSObject) (ev : TraceEvent),
        entries[i]? = some entry → events[i]? = some ev →
        (hasOwn entry "startTime" = false → ev.ts = .nan) ∧
        (hasOwn entry "duration" = false → ev.dur = .nan) ∧
        (hasOwn entry "entryType" = false → ev.cat = .undefined) ∧
        (hasOwn entry "name" = false → getProp entry "entryType" ≠ .string "resource" →
          ev.name = .undefined) := by
  obtain ⟨events, entries1, h⟩ := generateTraceEvents_returns rt entries
    (fun entry hmem =>
      ⟨toNumber_primitive rt _ (hall entry hmem).1,
       toNumber_primitive rt _ (hall entry hmem).2.1, (hall entry hmem).2.2⟩)
  refine ⟨events, entries1, h, (generateTraceEvents_ok rt entries events entries1 h).1, ?_⟩
  intro i entry ev hi hev
  obtain ⟨entry1, hbody⟩ := generateTraceEvents_event rt entries events entries1 h i entry ev hi hev
  obtain ⟨_, hname, hcat, hts, hdur, _⟩ := traceEventOfEntry_ok rt i entry ev entry1 hbody
  refine ⟨?_, ?_, ?_, ?_⟩
  · intro hmiss
    rw [getProp_of_not_hasOwn entry _ hmiss] at hts
    exact times1000_undefined rt _ hts
  · intro hmiss
    rw [getProp_of_not_hasOwn entry _ hmiss] at hdur
    exact times1000_undefined rt _ hdur
  · intro hmiss
    rw [hcat, getProp_of_not_hasOwn entry _ hmiss]
  · intro hmiss hne
    rw [hname, if_neg hne, getProp_of_not_hasOwn entry _ hmiss]

/-- C14 as amended, on the malformed record `{duration: 'soon'}`. -/
theorem generateTraceEvents_returns_on_primitives_witness :
    (∀ entry ∈ [malformedEntry],
      isPrimitive (getProp entry "startTime") = true ∧
      isPrimitive (getProp entry "duration") = true ∧
      (getProp entry "entryType" = .string "measure" →
        ∃ name : String, getProp entry "name" = .string name)) ∧
    ∃ (events : List TraceEvent) (entries1 : List JSObject),
      generateTraceEvents numericRuntime [malformedEntry] = .ok (events, entries1) ∧
      events.length = [malformedEntry].length :=
  have hall : ∀ entry ∈ [malformedEntry],
      isPrimitive (getProp entry "startTime") = true ∧
      isPrimitive (getProp entry "duration") = true ∧
      (getProp entry "entryType" = .string "measure" →
        ∃ name : String, getProp entry "name" = .string name) := by
    intro entry hmem
    rw [List.mem_singleton] at hmem
    subst hmem
    exact ⟨rfl, rfl, fun hm => absurd hm (by decide)⟩
  ⟨hall, by
    obtain ⟨events, entries1, h1, h2, _⟩ :=
      generateTraceEvents_returns_on_primitives numericRuntime [malformedEntry] hall
    exact ⟨events, entries1, h1, h2⟩⟩

/-- C14 as stated fails: on the record `{entryType: 'measure', startTime: 5,
duration: 0}`, which has no `name`, the function raises a `TypeError`. -/
theorem generateTraceEvents_raises_counterexample :
    generateTraceEvents numericRuntime [namelessMeasure] = .error .typeError ∧
    hasOwn namelessMeasure "name" = false :=
  ⟨rfl, rfl⟩

/-- With any runtime, a `'measure'` entry whose `name` is not a string makes the
loop body raise. -/
theorem traceEventOfEntry_raises (rt : Runtime) (id : Nat) (entry : JSObject)
    (hm : getProp entry "entryType" = .string "measure")
    (hn : ∀ name : String, getProp entry "name" ≠ .string name) :
    ∃ err, traceEventOfEntry rt id entry = .error err := by
  have hc : classify entry = .error .typeError := by
    unfold classify
    have hmark : getProp entry "entryType" ≠ .string "mark" := by rw [hm]; decide
    rw [strictEqualsString_eq_false _ _ hmark, (strictEqualsString_iff _ _).2 hm]
    cases hv : getProp entry "name" with
    | string s => exact absurd hv (hn s)
    | _ => simp
  unfold traceEventOfEntry
  cases times1000 rt (getProp entry "startTime") with
  | error err => exact ⟨err, rfl⟩
  | ok ts =>
    cases times1000 rt (getProp entry "duration") with
    | error err => exact ⟨err, rfl⟩
    | ok dur => exact ⟨.typeError, by simp [hc]⟩

/-- C19 at the failing input: the entry has the own key `__proto__`, which passes
the filter on `entryType`, `name` and `toJSON`, yet the event's `args` does not have
it. -/
theorem generateTraceEvents_args_drops_proto :
    generateTraceEvents numericRuntime [protoMark] = .ok ([sampleMarkEvent], [protoMark]) ∧
    protoMark.filter (fun p => decide (¬ (p.1 = "entryType" ∨ p.1 = "name" ∨ p.1 = "toJSON"))) =
      [("startTime", .number (JSNum.ofNat 5)), ("duration", .number (JSNum.ofNat 0)),
       ("__proto__", .number (JSNum.ofNat 7))] ∧
    sampleMarkEvent.args =
      [("startTime", .number (JSNum.ofNat 5)), ("duration", .number (JSNum.ofNat 0))] ∧
    hasOwn protoMark "__proto__" = true ∧
    hasOwn sampleMarkEvent.args "__proto__" = false :=
  ⟨rfl, by decide, rfl, rfl, rfl⟩

/-! ## Claims about the wrapper functions -/

/-- The text `String.intercalate.go` builds: the accumulator, then each remaining
string preceded by the separator. -/
theorem intercalate_go_eq (sep : String) :
    ∀ (xs : List String) (acc x : String),
      String.intercalate.go (acc ++ x) sep xs = acc ++ joinStrings sep (x :: xs) := by
  intro xs
  induction xs with
  | nil => intro acc x; simp [String.intercalate.go, joinStrings]
  | cons y rest ih =>
    intro acc x
    have h1 : acc ++ x ++ sep ++ y = (acc ++ x ++ sep) ++ y := rfl
    simp only [String.intercalate.go, joinStrings]
    rw [h1, ih (acc ++ x ++ sep) y]
    simp [String.append_assoc]

theorem joinStrings_eq_intercalate (sep : String) (xs : List String) :
    joinStrings sep xs = String.intercalate sep xs := by
  cases xs with
  | nil => rfl
  | cons x rest =>
    have h := intercalate_go_eq sep rest "" x
    simp only [String.empty_append] at h
    simp only [String.intercalate]
    rw [h]

/-- C16: when the positional argument `argv[2]` is missing or empty, or the path it
resolves to does not exist, the run ends with exit code 1, the file system is
unchanged, nothing is printed to the standard output, and the run does not depend
on the mapper's runtime, on the serialiser or on the reader of the results. -/
theorem saveTraceFromCLI_error_exit (host : Host) (rt : Runtime) (p : Process)
    (hbad : p.argv[2]? = none ∨ p.argv[2]? = some "" ∨
      ∃ arg : String, p.argv[2]? = some arg ∧ p.fs (host.resolve p.cwd arg) = none) :
    (saveTraceFromCLI host rt p).1 = .exited 1 ∧
    (saveTraceFromCLI host rt p).2.fs = p.fs ∧
    (saveTraceFromCLI host rt p).2.stdout = p.stdout ∧
    (∀ (host2 : Host) (rt2 : Runtime), host2.resolve = host.resolve →
      saveTraceFromCLI host2 rt2 p = saveTraceFromCLI host rt p) := by
  rcases hbad with h | h | ⟨arg, h, hfs⟩
  · refine ⟨?_, ?_, ?_, ?_⟩ <;> simp [saveTraceFromCLI, h, printErrorAndQuit]
  · refine ⟨?_, ?_, ?_, ?_⟩ <;> simp [saveTraceFromCLI, h, printErrorAndQuit]
  · by_cases he : arg = ""
    · refine ⟨?_, ?_, ?_, ?_⟩ <;> simp [saveTraceFromCLI, h, he, printErrorAndQuit]
    · refine ⟨?_, ?_, ?_, ?_⟩
      · simp [saveTraceFromCLI, h, he, hfs, printErrorAndQuit]
      · simp [saveTraceFromCLI, h, he, hfs, printErrorAndQuit]
      · simp [saveTraceFromCLI, h, he, hfs, printErrorAndQuit]
      · intro host2 rt2 hres
        simp [saveTraceFromCLI, h, he, hfs, hres, printErrorAndQuit]

/-- C16 on a process started without a results path. -/
theorem saveTraceFromCLI_error_exit_witness :
    (sampleProcess.argv[2]? = none ∨ sampleProcess.argv[2]? = some "" ∨
      ∃ arg : String, sampleProcess.argv[2]? = some arg ∧
        sampleProcess.fs (sampleHost.resolve sampleProcess.cwd arg) = none) ∧
    (saveTraceFromCLI sampleHost numericRuntime sampleProcess).1 = .exited 1 ∧
    (saveTraceFromCLI sampleHost numericRuntime sampleProcess).2.fs = sampleProcess.fs :=
  ⟨Or.inl rfl,
    (saveTraceFromCLI_error_exit sampleHost numericRuntime sampleProcess (Or.inl rfl)).1,
    (saveTraceFromCLI_error_exit sampleHost numericRuntime sampleProcess (Or.inl rfl)).2.1⟩

theorem splitLines_append_newline (ys : List Char) :
    ∀ xs : List Char, '\n' ∉ xs → splitLines (xs ++ '\n' :: ys) = xs :: splitLines ys := by
  intro xs
  induction xs with
  | nil => intro _; simp [splitLines]
  | cons c cs ih =>
    intro hno
    have hc : c ≠ '\n' := fun hh => hno (by rw [hh]; exact List.mem_cons_self _ _)
    have hcs : '\n' ∉ cs := fun hh => hno (List.mem_cons_of_mem _ hh)
    show splitLines (c :: (cs ++ '\n' :: ys)) = (c :: cs) :: splitLines ys
    rw [splitLines, if_neg hc, ih hcs]

theorem splitLines_of_no_newline :
    ∀ xs : List Char, '\n' ∉ xs → splitLines xs = [xs] := by
  intro xs
  induction xs with
  | nil => intro _; rfl
  | cons c cs ih =>
    intro hno
    have hc : c ≠ '\n' := fun hh => hno (by rw [hh]; exact List.mem_cons_self _ _)
    have hcs : '\n' ∉ cs := fun hh => hno (List.mem_cons_of_mem _ hh)
    rw [splitLines, if_neg hc, ih hcs]

/-- The joined serialisations, followed by a newline: one line per event. -/
theorem splitLines_joinStrings (rest : List Char) :
    ∀ (lines : List String) (indent : String),
      '\n' ∉ indent.data → (∀ x ∈ lines, '\n' ∉ x.data) →
      splitLines ((indent ++ joinStrings ",\n" lines).data ++ '\n' :: rest) =
        (eventLines indent lines).map String.data ++ splitLines rest := by
  intro lines
  induction lines with
  | nil =>
    intro indent hi _
    simp only [joinStrings, String.append_empty, eventLines, List.map_cons, List.map_nil,
      List.singleton_append]
    exact splitLines_append_newline rest _ hi
  | cons x tl ih =>
    intro indent hi hall
    have hx : '\n' ∉ x.data := hall x (List.mem_cons_self _ _)
    cases tl with
    | nil =>
      simp only [joinStrings, eventLines, List.map_cons, List.map_nil, List.singleton_append]
      apply splitLines_append_newline
      simp only [String.data_append, List.mem_append, not_or]
      exact ⟨hi, hx⟩
    | cons y r =>
      have htl : ∀ z ∈ y :: r, '\n' ∉ z.data := fun z hz => hall z (List.mem_cons_of_mem _ hz)
      have hrec := ih "" (by decide) htl
      have hsplit : (indent ++ joinStrings ",\n" (x :: y :: r)).data ++ '\n' :: rest =
          (indent ++ x ++ ",").data ++
            '\n' :: (("" ++ joinStrings ",\n" (y :: r)).data ++ '\n' :: rest) := by
        simp only [joinStrings, String.data_append, List.append_assoc]
        simp
      have hline : '\n' ∉ (indent ++ x ++ ",").data := by
        simp only [String.data_append, List.mem_append, not_or]
        exact ⟨⟨hi, hx⟩, by decide⟩
      rw [hsplit, splitLines_append_newline _ _ hline, hrec]
      simp [eventLines]

/-- C17: when the mapper returns N events, `saveTraceOfTimings` calls
`fs.writeFileSync` with the text made of the header with the key `"traceEvents"` and
the opening `[`, then the serialisations of the events in order separated by a comma
and a newline, then the closing `]}`, and returns when that call returns; with no
events only whitespace stands between the brackets; when no serialisation holds a
newline, each event is on a line of its own, with no comma after the last; and when
`traceFilePath` is absent or empty the path is `run-timing.trace.json` resolved
against the current working directory. -/
theorem saveTraceOfTimings_writes (host : Host) (rt : Runtime) (entries : List JSObject)
    (traceFilePath : Option String) (p : Process)
    (events : List TraceEvent) (entries1 : List JSObject) (target : String)
    (h : generateTraceEvents rt entries = .ok (events, entries1))
    (htarget : ((traceFilePath = none ∨ traceFilePath = some "") ∧
        target = host.resolve p.cwd "run-timing.trace.json") ∨
      (traceFilePath = some target ∧ target ≠ "")) :
    saveTraceOfTimings host rt entries traceFilePath p =
      (match host.writeFileSync p.cwd p.fs target
          ("\n  \x7b \"traceEvents\": [\n    " ++
            String.intercalate ",\n" (events.map host.stringify) ++ "\n  ]\x7d") with
        | .error what => (.threw what, p)
        | .ok fs1 =>
          (.returned, { p with fs := fs1, stdout := p.stdout ++ [savedMessage target] })) ∧
    (events = [] →
      "\n  \x7b \"traceEvents\": [\n    " ++
        String.intercalate ",\n" (events.map host.stringify) ++ "\n  ]\x7d" =
      "\n  \x7b \"traceEvents\": [\n    \n  ]\x7d") ∧
    ((∀ ev ∈ events, '\n' ∉ (host.stringify ev).data) →
      splitLines ("\n  \x7b \"traceEvents\": [\n    " ++
        String.intercalate ",\n" (events.map host.stringify) ++ "\n  ]\x7d").data =
      (traceFileLines (events.map host.stringify)).map String.data) := by
  have hpath : traceFilePathOrDefault host p traceFilePath = target := by
    unfold traceFilePathOrDefault
    rcases htarget with ⟨h1 | h1, h2⟩ | ⟨h1, h2⟩
    · rw [h1, h2]
    · rw [h1, h2]; simp
    · rw [h1]; simp [h2]
  have htext : traceFileText (events.map host.stringify) =
      "\n  \x7b \"traceEvents\": [\n    " ++
        String.intercalate ",\n" (events.map host.stringify) ++ "\n  ]\x7d" := by
    unfold traceFileText
    rw [joinStrings_eq_intercalate]
  refine ⟨?_, ?_, ?_⟩
  · unfold saveTraceOfTimings
    simp only [h, hpath, htext]
  · intro hnil
    subst hnil
    rfl
  · intro hall
    have hlines : ∀ x ∈ events.map host.stringify, '\n' ∉ x.data := by
      intro x hx
      obtain ⟨ev, hev, rfl⟩ := List.mem_map.1 hx
      exact hall ev hev
    rw [← joinStrings_eq_intercalate]
    have hdata : ("\n  \x7b \"traceEvents\": [\n    " ++
          joinStrings ",\n" (events.map host.stringify) ++ "\n  ]\x7d").data =
        [] ++ '\n' :: (("  \x7b \"traceEvents\": [" : String).data ++
          '\n' :: (("    " ++ joinStrings ",\n" (events.map host.stringify)).data ++
            '\n' :: ("  ]\x7d" : String).data)) := by
      have h1 : ("\n  \x7b \"traceEvents\": [\n    " : String).data =
          '\n' :: (("  \x7b \"traceEvents\": [" : String).data ++
            '\n' :: ("    " : String).data) := rfl
      have h2 : ("\n  ]\x7d" : String).data = '\n' :: ("  ]\x7d" : String).data := rfl
      simp only [String.data_append, h1, h2]
      simp
    rw [hdata, splitLines_append_newline _ [] (by simp),
      splitLines_append_newline _ _ (by decide),
      splitLines_joinStrings _ _ "    " (by decide) hlines,
      splitLines_of_no_newline _ (by decide)]
    simp [traceFileLines]

/-- C17 on the sample entries, with no `traceFilePath`, in `/work`, on a host where
the write succeeds. -/
theorem saveTraceOfTimings_writes_witness :
    (generateTraceEvents numericRuntime sampleEntries = .ok (sampleEvents, sampleEntriesAfter) ∧
      (((none : Option String) = none ∨ (none : Option String) = some "") ∧
        "/work/run-timing.trace.json" =
          sampleHost.resolve sampleProcess.cwd "run-timing.trace.json")) ∧
    (saveTraceOfTimings sampleHost numericRuntime sampleEntries none sampleProcess).1 =
      .returned ∧
    (saveTraceOfTimings sampleHost numericRuntime sampleEntries none sampleProcess).2.fs
        "/work/run-timing.trace.json" =
      some (.file ("\n  \x7b \"traceEvents\": [\n    " ++
        String.intercalate ",\n" (sampleEvents.map sampleHost.stringify) ++ "\n  ]\x7d")) ∧
    splitLines ("\n  \x7b \"traceEvents\": [\n    " ++
        String.intercalate ",\n" (sampleEvents.map sampleHost.stringify) ++ "\n  ]\x7d").data =
      (["", "  \x7b \"traceEvents\": [", "    \"0x0\",", "\"0x1\",", "\"0x2\"", "  ]\x7d"].map
        String.data) := by
  have hw := saveTraceOfTimings_writes sampleHost numericRuntime sampleEntries none
    sampleProcess sampleEvents sampleEntriesAfter "/work/run-timing.trace.json" rfl
    (Or.inl ⟨Or.inl rfl, by decide⟩)
  refine ⟨⟨rfl, ⟨Or.inl rfl, by decide⟩⟩, ?_, ?_, ?_⟩
  · rw [hw.1]; rfl
  · rw [hw.1]; simp [sampleHost]
  · rw [hw.2.2 (by decide)]; rfl

/-! ## The `args` object as a filtered copy -/

theorem getProp_append_of_not_hasOwn (pre suf : JSObject) (key : String)
    (h : hasOwn pre key = false) : getProp (pre ++ suf) key = getProp suf key := by
  induction pre with
  | nil => rfl
  | cons p rest ih =>
    obtain ⟨k, w⟩ := p
    by_cases hk : k = key
    · simp [hasOwn, hk] at h
    · simp only [hasOwn, hk, if_false] at h
      simp [getProp, hk, ih h]

theorem hasOwn_filter_of_not_hasOwn (o : JSObject) (f : String × JSValue → Bool)
    (key : String) (h : hasOwn o key = false) : hasOwn (o.filter f) key = false := by
  induction o with
  | nil => rfl
  | cons p rest ih =>
    obtain ⟨k, w⟩ := p
    by_cases hk : k = key
    · simp [hasOwn, hk] at h
    · simp only [hasOwn, hk, if_false] at h
      by_cases hf : f (k, w) = true
      · simp [List.filter, hf, hasOwn, hk, ih h]
      · simp [List.filter, hf, ih h]

theorem foldl_copyKey_eq_filter (entry : JSObject)
    (hnd : (objectKeys entry).Nodup) (hp : hasOwn entry "__proto__" = false) :
    ∀ (suf pre : JSObject), entry = pre ++ suf →
      (objectKeys suf).foldl (copyKey entry)
          (pre.filter (fun p => decide (¬ (p.1 = "entryType" ∨ p.1 = "name" ∨ p.1 = "toJSON"))))
        = entry.filter
            (fun p => decide (¬ (p.1 = "entryType" ∨ p.1 = "name" ∨ p.1 = "toJSON"))) := by
  intro suf
  induction suf with
  | nil =>
    intro pre he
    simp only [List.append_nil] at he
    subst he
    rfl
  | cons kv rest ih =>
    intro pre he
    obtain ⟨k, v⟩ := kv
    have he2 : entry = (pre ++ [(k, v)]) ++ rest := by rw [he]; simp
    have hkeys : objectKeys entry = objectKeys pre ++ k :: objectKeys rest := by
      rw [he]; simp [objectKeys]
    have hpre : hasOwn pre k = false := by
      rw [Bool.eq_false_iff]
      intro hh
      have hmem := (hasOwn_iff_mem_keys pre k).1 hh
      rw [hkeys] at hnd
      exact (List.nodup_append.1 hnd).2.2 hmem (List.mem_cons_self _ _)
    have hval : getProp entry k = v := by
      rw [he, getProp_append_of_not_hasOwn pre _ k hpre]
      simp [getProp]
    have hproto : k ≠ "__proto__" := by
      intro hk
      have hmem : "__proto__" ∈ objectKeys entry := by
        rw [hkeys, hk]; simp
      rw [(hasOwn_iff_mem_keys entry _).2 hmem] at hp
      exact Bool.noConfusion hp
    have hstep : copyKey entry
        (pre.filter (fun p => decide (¬ (p.1 = "entryType" ∨ p.1 = "name" ∨ p.1 = "toJSON")))) k
        = (pre ++ [(k, v)]).filter
            (fun p => decide (¬ (p.1 = "entryType" ∨ p.1 = "name" ∨ p.1 = "toJSON"))) := by
      unfold copyKey assignArg
      by_cases hx : k = "entryType" ∨ k = "name" ∨ k = "toJSON"
      · have hd : decide (¬ (k = "entryType" ∨ k = "name" ∨ k = "toJSON")) = false :=
          decide_eq_false (fun hh => hh hx)
        have hs : List.filter (fun p : String × JSValue =>
            decide (¬ (p.1 = "entryType" ∨ p.1 = "name" ∨ p.1 = "toJSON"))) [(k, v)] = [] := by
          simp only [List.filter, hd]
        simp only [hx, if_true]
        rw [List.filter_append, hs, List.append_nil]
      · have hd : decide (¬ (k = "entryType" ∨ k = "name" ∨ k = "toJSON")) = true :=
          decide_eq_true hx
        have hs : List.filter (fun p : String × JSValue =>
            decide (¬ (p.1 = "entryType" ∨ p.1 = "name" ∨ p.1 = "toJSON"))) [(k, v)]
            = [(k, v)] := by
          simp only [List.filter, hd]
        simp only [hx, if_false, hproto, hval]
        rw [setProp_of_not_hasOwn _ _ _ (hasOwn_filter_of_not_hasOwn pre _ k hpre),
          List.filter_append, hs]
    simp only [objectKeys, List.map_cons, List.foldl_cons]
    rw [hstep]
    exact ih (pre ++ [(k, v)]) he2

/-- For an entry with distinct keys and no own key `__proto__`, `args` is the entry's
key/value list with `entryType`, `name` and `toJSON` filtered out, in the same order. -/
theorem buildArgs_eq_filter (entry : JSObject)
    (hnd : (objectKeys entry).Nodup) (hp : hasOwn entry "__proto__" = false) :
    buildArgs entry = entry.filter
      (fun p => decide (¬ (p.1 = "entryType" ∨ p.1 = "name" ∨ p.1 = "toJSON"))) := by
  unfold buildArgs
  exact foldl_copyKey_eq_filter entry hnd hp entry [] rfl

end LHTimingTrace
